import Mathlib

/-!
# Verification of the obsidian-gdocs sync core

A shallow embedding of the algorithmic core of the `lupiter/obsidian-gdocs`
plugin, together with proofs settling the frozen claims about its
specification.

Embedded components (translated from the TypeScript source):

* `ConflictResolver` (`detectConflict`, `autoResolve`, `tryLineMerge`,
  `generateDiff`) — from the class appended to `TESTING.md`;
* `FolderParser.serializeFolderNode` / `calculateFolderHash` and
  `stripFrontMatter` — from `src/sync/folder-parser.ts`;
* `GoogleDocsToMarkdownConverter` (`convertToMarkdown`, `extractStructure`)
  — from `src/converters/gdoc-to-markdown.ts`;
* the block-level effect of `MarkdownToGoogleDocsConverter.convertToGoogleDocs`
  — from `src/converters/gdoc-to-markdown.ts`;
* the linked-folder branch of `SyncEngine` (`syncExisting`, `handleConflict`,
  `updateLocalFiles`) — from `src/sync/sync-engine.ts` (first class in the
  file, the OAuth-based engine the claims cite).

JavaScript strings are modelled as Lean `String`; the JS string operations
used by the source (`trim`, `split('\n')`, `join('\n')`, `replace(/\n+$/,'')`,
`startsWith`, `repeat`, `parseInt`, truthiness of strings) are modelled
explicitly below, over `List Char`, with ASCII whitespace.  Cryptographic
digests (SHA-256) are modelled as an abstract function parameter
`digest : String → String`: the source only ever compares digests for
equality.
-/

namespace GdocsSync

/-! ## JS string primitives -/

/-- Whitespace as recognised by JS `String.prototype.trim` (ASCII part:
space, tab, newline, carriage return, vertical tab, form feed). -/
def jsIsWS (c : Char) : Bool :=
  c == ' ' || c == '\t' || c == '\n' || c == '\r' || c == '\x0b' || c == '\x0c'

/-- Drop trailing characters satisfying `p` from a char list. -/
def dropRightWhile (p : Char → Bool) (l : List Char) : List Char :=
  (l.reverse.dropWhile p).reverse

/-- Model of JS `s.trim()`: strip whitespace from both ends (right end
first; the two orders agree). -/
def jsTrim (s : String) : String :=
  ⟨(dropRightWhile jsIsWS s.data).dropWhile jsIsWS⟩

/-- Model of `text.replace(/\n+$/, '')`: strip trailing newlines. -/
def stripTrailingNl (s : String) : String :=
  ⟨dropRightWhile (· == '\n') s.data⟩

/-- Splitting a char list at `'\n'`; `splitNlAux cs acc` processes `cs`
with `acc` holding the (reversed) current segment. -/
def splitNlAux : List Char → List Char → List (List Char)
  | [], acc => [acc.reverse]
  | c :: cs, acc =>
    if c == '\n' then acc.reverse :: splitNlAux cs []
    else splitNlAux cs (c :: acc)

/-- Model of JS `s.split('\n')`.  `"".split('\n') = [""]`, as in JS. -/
def jsSplitNl (s : String) : List String :=
  (splitNlAux s.data []).map String.mk

/-- Model of JS `lines.join('\n')`. -/
def joinNl : List String → String
  | [] => ""
  | [x] => x
  | x :: xs => x ++ "\n" ++ joinNl xs

/-- Decimal digit character, as produced by JS number-to-string
conversion (`'0'` + d). -/
def decDigitChar (d : Nat) : Char := Char.ofNat (48 + d)

/-- Fuel-driven decimal rendering of a natural number (most significant
digit first).  The fuel is always sufficient at `n + 1`. -/
def natToDecAux : Nat → Nat → List Char
  | 0, _ => []
  | f + 1, n =>
    if n < 10 then [decDigitChar n]
    else natToDecAux f (n / 10) ++ [decDigitChar (n % 10)]

/-- Model of JS number-to-string conversion for a natural number
(template literals such as `` `${node.level}` ``). -/
def natToDec (n : Nat) : String := ⟨natToDecAux (n + 1) n⟩

/-- Value of a decimal digit string (used to invert `natToDec`). -/
def decVal (l : List Char) : Nat :=
  l.foldl (fun a c => a * 10 + (c.toNat - 48)) 0

/-- Model of JS `parseInt` restricted to the non-negative case used by the
source: parse the longest prefix of decimal digits; `none` models `NaN`
(no digits at all). -/
def jsParseIntNat (s : String) : Option Nat :=
  let ds := s.data.takeWhile Char.isDigit
  if ds.isEmpty then none else some (decVal ds)

/-- Model of JS `'#'.repeat(n)`. -/
def hashRepeat (n : Nat) : String := ⟨List.replicate n '#'⟩

/-- Does the string start with the character `c` (JS `startsWith` on a
one-character pattern)? -/
def startsWithChar (s : String) (c : Char) : Bool :=
  match s.data with
  | [] => false
  | d :: _ => d == c

/-- JS truthiness of a `string` value (falsy iff empty). -/
def strTruthy (s : String) : Bool := s != ""

/-- JS truthiness of a `string | undefined` value. -/
def optStrTruthy : Option String → Bool
  | none => false
  | some s => strTruthy s

/-! ## ConflictResolver (appended to `TESTING.md`) -/

/-- `ConflictResolver.detectConflict`: a conflict exists iff both sides
differ from the last-sync hash and from each other. -/
def detectConflict (localHash remoteHash lastSyncHash : String) : Bool :=
  localHash != lastSyncHash && remoteHash != lastSyncHash && localHash != remoteHash

/-- The loop body of `ConflictResolver.tryLineMerge`: iterate `cnt` more
indices starting at `i`, accumulating merged lines in reverse; `none`
models the `hasConflict` early exit. -/
def tryLineMergeLoop (ll rl bl : List String) : Nat → Nat → List String → Option (List String)
  | 0, _, acc => some acc.reverse
  | cnt + 1, i, acc =>
    let localLine := ll.getD i ""
    let remoteLine := rl.getD i ""
    let baseLine := bl.getD i ""
    if localLine == remoteLine then
      tryLineMergeLoop ll rl bl cnt (i + 1) (localLine :: acc)
    else if localLine == baseLine then
      tryLineMergeLoop ll rl bl cnt (i + 1) (remoteLine :: acc)
    else if remoteLine == baseLine then
      tryLineMergeLoop ll rl bl cnt (i + 1) (localLine :: acc)
    else
      none

/-- `ConflictResolver.tryLineMerge`: line-by-line three-way merge; `none`
models the `null` result (merge failed). -/
def tryLineMerge (localContent remoteContent baseContent : String) : Option String :=
  let localLines := jsSplitNl localContent
  let remoteLines := jsSplitNl remoteContent
  let baseLines := jsSplitNl baseContent
  let maxLen := max (max localLines.length remoteLines.length) baseLines.length
  (tryLineMergeLoop localLines remoteLines baseLines maxLen 0 []).map joinNl

/-- `ConflictResolver.autoResolve`: three-way resolution with the three
trivial cases first, then the line merge. -/
def autoResolve (localContent remoteContent baseContent : String) : Option String :=
  if localContent == baseContent then some remoteContent
  else if remoteContent == baseContent then some localContent
  else if localContent == remoteContent then some localContent
  else tryLineMerge localContent remoteContent baseContent

/-- Kind tag of a `ContentDiff` (`type` field in the source). -/
inductive DiffKind where
  | added
  | removed
  | modified
deriving DecidableEq, Repr

/-- `ContentDiff` from `types.ts` (the `type` field is named `ctype`
here because `type` is a Lean keyword). -/
structure ContentDiff where
  ctype : DiffKind
  location : String
  oldValue : Option String := none
  newValue : Option String := none
deriving DecidableEq, Repr

/-- Model of JS `arr.indexOf(x, from)` on string arrays: first index `≥ from`
holding `x`, or `-1`. -/
def indexOfFrom (xs : List String) (x : String) (start : Nat) : Int :=
  match (xs.drop start).findIdx? (· == x) with
  | some k => ((start + k : Nat) : Int)
  | none => -1

/-- The two-cursor loop of `ConflictResolver.generateDiff`.  The fuel is
always sufficient at `|old| + |new| + 1` because every iteration advances
at least one cursor. -/
def generateDiffLoop (oldL newL : List String) : Nat → Nat → Nat → List ContentDiff
  | 0, _, _ => []
  | fuel + 1, i, j =>
    if i ≥ oldL.length then
      if j ≥ newL.length then []
      else
        { ctype := .added, location := "line " ++ natToDec (j + 1),
          newValue := some (newL.getD j "") } ::
          generateDiffLoop oldL newL fuel i (j + 1)
    else if j ≥ newL.length then
      { ctype := .removed, location := "line " ++ natToDec (i + 1),
        oldValue := some (oldL.getD i "") } ::
        generateDiffLoop oldL newL fuel (i + 1) j
    else if oldL.getD i "" == newL.getD j "" then
      generateDiffLoop oldL newL fuel (i + 1) (j + 1)
    else
      let oldIndex := indexOfFrom newL (oldL.getD i "") j
      let newIndex := indexOfFrom oldL (newL.getD j "") i
      if oldIndex != -1 && (newIndex == -1 || oldIndex - (j : Int) < newIndex - (i : Int)) then
        { ctype := .added, location := "line " ++ natToDec (j + 1),
          newValue := some (newL.getD j "") } ::
          generateDiffLoop oldL newL fuel i (j + 1)
      else if newIndex != -1 then
        { ctype := .removed, location := "line " ++ natToDec (i + 1),
          oldValue := some (oldL.getD i "") } ::
          generateDiffLoop oldL newL fuel (i + 1) j
      else
        { ctype := .modified, location := "line " ++ natToDec (i + 1),
          oldValue := some (oldL.getD i ""), newValue := some (newL.getD j "") } ::
          generateDiffLoop oldL newL fuel (i + 1) (j + 1)

/-- `ConflictResolver.generateDiff`: greedy line-oriented diff with a
one-sided lookahead. -/
def generateDiff (oldContent newContent : String) : List ContentDiff :=
  let oldLines := jsSplitNl oldContent
  let newLines := jsSplitNl newContent
  generateDiffLoop oldLines newLines (oldLines.length + newLines.length + 1) 0 0

/-! ## FolderNode (`types.ts`) and FolderParser (`src/sync/folder-parser.ts`) -/

/-- The `type` field of a `FolderNode` (`'file' | 'folder'`). -/
inductive NodeKind where
  | file
  | folder
deriving DecidableEq, Repr

/-- `FolderNode` from `types.ts`.  `level`, `children` and `content` are
optional in the source; `none` models an absent (`undefined`) field.  The
`type` field is named `kind` here because `type` is a Lean keyword. -/
inductive FolderNode where
  | mk (name path : String) (kind : NodeKind) (level : Option Nat)
       (children : Option (List FolderNode)) (content : Option String)

/-- The `name` field. -/
def FolderNode.name : FolderNode → String
  | .mk n _ _ _ _ _ => n

/-- The `path` field. -/
def FolderNode.path : FolderNode → String
  | .mk _ p _ _ _ _ => p

/-- The `type` field. -/
def FolderNode.kind : FolderNode → NodeKind
  | .mk _ _ t _ _ _ => t

/-- The `level` field. -/
def FolderNode.level : FolderNode → Option Nat
  | .mk _ _ _ l _ _ => l

/-- The `children` field. -/
def FolderNode.children : FolderNode → Option (List FolderNode)
  | .mk _ _ _ _ cs _ => cs

/-- The `content` field. -/
def FolderNode.content : FolderNode → Option String
  | .mk _ _ _ _ _ c => c

/-- Rendering of the `type` field in template literals. -/
def NodeKind.str : NodeKind → String
  | .file => "file"
  | .folder => "folder"

/-- Rendering of the optional `level` field in the template literal
`` `${node.type}:${node.name}:${node.level}` `` (an absent field prints
as `undefined`). -/
def levelStr : Option Nat → String
  | none => "undefined"
  | some l => natToDec l

/-- The `:content` part of `FolderParser.serializeFolderNode`
(`if (node.content)` — absent or empty content is skipped). -/
def contentPart : Option String → String
  | none => ""
  | some c => if c == "" then "" else ":" ++ c

mutual

/-- `FolderParser.serializeFolderNode`: canonical order-sensitive
serialization used for hashing. -/
def serializeFolderNode : FolderNode → String
  | .mk n _ t l cs c =>
    t.str ++ ":" ++ n ++ ":" ++ levelStr l ++ contentPart c ++ childrenPart cs

/-- The `:children:[...]` part of `serializeFolderNode`
(`if (node.children && node.children.length > 0)`). -/
def childrenPart : Option (List FolderNode) → String
  | none => ""
  | some children =>
    if children.isEmpty then ""
    else ":children:[" ++ serializeChildren children ++ "]"

/-- The loop over `node.children` in `serializeFolderNode`: each child is
serialized and followed by a comma. -/
def serializeChildren : List FolderNode → String
  | [] => ""
  | x :: xs => serializeFolderNode x ++ "," ++ serializeChildren xs

end

/-- `FolderParser.calculateFolderHash` with the SHA-256 digest abstracted:
serialize the (already parsed) tree, then digest the string. -/
def calculateFolderHashWith (digest : String → String) (tree : FolderNode) : String :=
  digest (serializeFolderNode tree)

mutual

/-- `MarkdownToGoogleDocsConverter.flattenNodes` (with `includeRoot =
false`, as called by `convertToGoogleDocs`): the proper descendants of
the node, depth-first, siblings in order.  A present-but-empty `children`
array is truthy in JS, so the source recurses into it and contributes
nothing, same as this model. -/
def flattenNodes : FolderNode → List FolderNode
  | .mk _ _ _ _ cs _ =>
    match cs with
    | none => []
    | some children => flattenList children

/-- The loop over `node.children` in `flattenNodes`: push each child,
then (when the child has a `children` field) its own descendants. -/
def flattenList : List FolderNode → List FolderNode
  | [] => []
  | x :: xs =>
    x :: (match x.children with
          | none => []
          | some _ => flattenNodes x) ++ flattenList xs

end

/-! ## Google Docs document model (`types.ts`) -/

/-- `GoogleDocTextStyle`: optional boolean flags; an absent flag is falsy
in JS, so it is modelled as `false`. -/
structure GoogleDocTextStyle where
  bold : Bool := false
  italic : Bool := false
deriving DecidableEq, Repr

/-- The `textRun` payload of a `GoogleDocTextElement`. -/
structure GoogleDocTextRun where
  content : Option String := none
  textStyle : Option GoogleDocTextStyle := none
deriving DecidableEq, Repr

/-- `GoogleDocTextElement`. -/
structure GoogleDocTextElement where
  textRun : Option GoogleDocTextRun := none
deriving DecidableEq, Repr

/-- `GoogleDocParagraphStyle`.  `indentStart` is an object
(`GoogleDocDimension`) only tested for truthiness by the converter, so it
is modelled by its presence. -/
structure GoogleDocParagraphStyle where
  namedStyleType : Option String := none
  indentStart : Bool := false
deriving DecidableEq, Repr

/-- `GoogleDocParagraph`.  The source guards `!paragraph.elements ||
paragraph.elements.length === 0`, treating an absent array like an empty
one, so `elements` is modelled as a plain list. -/
structure GoogleDocParagraph where
  elements : List GoogleDocTextElement := []
  paragraphStyle : Option GoogleDocParagraphStyle := none
deriving DecidableEq, Repr

/-- `GoogleDocElement` (the converters only ever read the `paragraph`
member). -/
structure GoogleDocElement where
  paragraph : Option GoogleDocParagraph := none
deriving DecidableEq, Repr

/-- `GoogleDoc`.  The source guards `!doc.body || !doc.body.content`,
treating a missing body and a missing content array alike, so both are
modelled by `body = none`. -/
structure GoogleDoc where
  documentId : String := ""
  revisionId : String := ""
  body : Option (List GoogleDocElement) := none
deriving DecidableEq, Repr

/-! ## GoogleDocsToMarkdownConverter (`src/converters/gdoc-to-markdown.ts`) -/

/-- Model of JS `s.startsWith(pat)`. -/
def jsStartsWith (s pat : String) : Bool := pat.data.isPrefixOf s.data

/-- The per-run formatting step inside `convertParagraph`: wrap the run
content in markdown emphasis markers according to its text style. -/
def formatRun (tr : GoogleDocTextRun) (c : String) : String :=
  match tr.textStyle with
  | none => c
  | some style =>
    if style.bold && style.italic then "***" ++ c ++ "***"
    else if style.bold then "**" ++ c ++ "**"
    else if style.italic then "*" ++ c ++ "*"
    else c

/-- The text-accumulation loop of `convertParagraph`: concatenate the
formatted content of every truthy text run (`if (element.textRun &&
element.textRun.content)`; an empty content string is falsy). -/
def formattedText (elements : List GoogleDocTextElement) : String :=
  elements.foldl
    (fun acc e =>
      match e.textRun with
      | none => acc
      | some tr =>
        match tr.content with
        | none => acc
        | some c => if c == "" then acc else acc ++ formatRun tr c)
    ""

/-- The horizontal-rule test `/^[-]{3,}$/.test(text.trim())`. -/
def isHyphenRule (s : String) : Bool :=
  let t := (jsTrim s).data
  decide (3 ≤ t.length) && t.all (· == '-')

/-- Model of `styleType.replace('HEADING_', '')` under the guard
`styleType.startsWith('HEADING_')` (the first occurrence is the 8-char
prefix), followed by `parseInt`. -/
def parseHeadingLevel (st : String) : Option Nat :=
  jsParseIntNat ⟨st.data.drop 8⟩

/-- `GoogleDocsToMarkdownConverter.convertParagraph`.  The source's
return type is `string | null` but no path returns `null`, so the model
returns `String`. -/
def convertParagraph (p : GoogleDocParagraph) : String :=
  if p.elements.isEmpty then ""
  else
    let text := stripTrailingNl (formattedText p.elements)
    if isHyphenRule text then "---"
    else
      match p.paragraphStyle with
      | none => text
      | some ps =>
        match ps.namedStyleType with
        | some st =>
          if strTruthy st && jsStartsWith st "HEADING_" then
            hashRepeat ((parseHeadingLevel st).getD 0) ++ " " ++ text
          else if ps.indentStart then "> " ++ text else text
        | none => if ps.indentStart then "> " ++ text else text

/-- The main loop of `convertToMarkdown`: accumulate non-blank lines,
inserting a blank line before headings and between consecutive
paragraphs (`previousWasHeading` spacing rule). -/
def mdLoop : List GoogleDocElement → List String → Bool → List String
  | [], lines, _ => lines
  | e :: es, lines, prevHeading =>
    match e.paragraph with
    | none => mdLoop es lines prevHeading
    | some p =>
      let line := convertParagraph p
      if jsTrim line != "" then
        let isHeading := startsWithChar line '#'
        let lines1 :=
          if lines.isEmpty then lines
          else if isHeading || !prevHeading then lines ++ [""]
          else lines
        mdLoop es (lines1 ++ [line]) isHeading
      else mdLoop es lines prevHeading

/-- `GoogleDocsToMarkdownConverter.convertToMarkdown`. -/
def convertToMarkdown (doc : GoogleDoc) : String :=
  match doc.body with
  | none => ""
  | some content => joinNl (mdLoop content [] false)

/-- `GoogleDocsToMarkdownConverter.getParagraphText`: plain concatenated
run text with trailing newlines stripped. -/
def getParagraphText (p : GoogleDocParagraph) : String :=
  stripTrailingNl
    (p.elements.foldl
      (fun acc e =>
        match e.textRun with
        | none => acc
        | some tr =>
          match tr.content with
          | none => acc
          | some c => if c == "" then acc else acc ++ c)
      "")

/-- A `Section` produced by `extractStructure` (`{ level, title, content }`).
`level` holds the `parseInt` result; `none` models `NaN` (a malformed
`HEADING_` suffix with no digits). -/
structure Section where
  level : Option Nat
  title : String
  content : String
deriving DecidableEq, Repr

/-- `paragraph.paragraphStyle?.namedStyleType`. -/
def styleTypeOf (p : GoogleDocParagraph) : Option String :=
  match p.paragraphStyle with
  | none => none
  | some ps => ps.namedStyleType

/-- The loop of `extractStructure`: `secs` is the `sections` array so
far, `cur` the open `currentSection`.  A heading paragraph flushes `cur`
and opens a new section; a non-blank non-heading paragraph under an open
section appends its converted line to that section's content. -/
def extractLoop : List GoogleDocElement → List Section → Option Section → List Section
  | [], secs, cur => secs ++ cur.toList
  | e :: es, secs, cur =>
    match e.paragraph with
    | none => extractLoop es secs cur
    | some p =>
      let text := getParagraphText p
      let isHeading :=
        match styleTypeOf p with
        | some st => strTruthy st && jsStartsWith st "HEADING_"
        | none => false
      if isHeading then
        match styleTypeOf p with
        | some st =>
          extractLoop es (secs ++ cur.toList)
            (some { level := parseHeadingLevel st, title := jsTrim text, content := "" })
        | none => extractLoop es secs cur
      else
        match cur with
        | none => extractLoop es secs none
        | some cs =>
          if jsTrim text != "" then
            let line := convertParagraph p
            if jsTrim line != "" then
              extractLoop es secs
                (some { cs with
                        content := cs.content ++ (if cs.content != "" then "\n\n" else "") ++ line })
            else extractLoop es secs (some cs)
          else extractLoop es secs (some cs)

/-- `GoogleDocsToMarkdownConverter.extractStructure`. -/
def extractStructure (doc : GoogleDoc) : List Section :=
  match doc.body with
  | none => []
  | some content => extractLoop content [] none

/-! ## Character-buffer model of MarkdownToGoogleDocsConverter.convertToGoogleDocs

`convertToGoogleDocs` walks the flattened tree keeping a running
character index `currentIndex` (starting at 1), and emits `insertText`
requests — each at the current end of the document — plus
`updateParagraphStyle` requests over explicit index ranges
(`createParagraphStyleRequest(start, endIndex - 1)` produces the
half-open range `[start, start + title.length)` for a heading whose
inserted text is `title ++ "\n"`).  Because every insert lands at the
running end, the final document text is the concatenation of all
inserted strings, in emission order, and the style requests carry
absolute ranges into it.  The model below reproduces exactly that:
`BuildState` is `(text so far, paragraph-style requests so far,
currentIndex)`; `emitHeadingSection` and `emitContent` mirror
`createHeadingSection` / `createFileSection`; and `buildGoogleDoc`
models the document-store side — the text is segmented into paragraphs
after each newline (plus the store's immovable trailing newline), and a
paragraph's named style is the last `updateParagraphStyle` request
whose range overlaps it (requests are applied in order; unstyled
paragraphs read back as `NORMAL_TEXT`).

The body of a file is parsed by the external `marked` library and fed
through `processToken`; that pipeline only ever appends text at the
running index and adds paragraph-style requests at offsets relative to
the content's start, so one body's entire contribution is a pair
`ContentContrib` of (inserted text, relative paragraph-style ranges),
abstracted as the parameter `cb` since `marked` is not part of this
repository.  Note the pipeline does NOT guarantee the contribution ends
with a newline: `processList` inserts the `"• "`/`"1. "` item prefix
without one, and a tight list item's `text` token hits `processToken`'s
default no-op, so a body ending in a list leaves a dangling unterminated
prefix that merges into the next node's heading paragraph.
`updateTextStyle` requests (run-level bold/italic) are omitted: they
change neither the paragraph segmentation, nor paragraph styles, nor the
plain text read by `extractStructure`.  Indices count characters
(JS counts UTF-16 units; these agree outside astral code points). -/

/-- The paragraph a *cleanly placed* heading produces: text
`title ++ "\n"` (the inserted text), style `HEADING_<lvl>`. -/
def headingPara (title : String) (lvl : Nat) : GoogleDocParagraph :=
  { elements := [{ textRun := some { content := some (title ++ "\n") } }],
    paragraphStyle := some { namedStyleType := some ("HEADING_" ++ natToDec lvl) } }

/-- The document element wrapping a heading paragraph. -/
def headingParagraph (title : String) (lvl : Nat) : GoogleDocElement :=
  { paragraph := some (headingPara title lvl) }

/-- JS `node.level || 1` (both `undefined` and `0` are falsy). -/
def jsOr1 : Option Nat → Nat
  | none => 1
  | some 0 => 1
  | some l => l

/-- An `updateParagraphStyle` request as generated by
`createParagraphStyleRequest(start, stop, { namedStyleType })`, with the
half-open range `[start, stop)`.  The blockquote indent flag is dropped:
it never makes a style a `HEADING_` style and only affects section
*content* rendering. -/
structure ParStyleReq where
  start : Nat
  stop : Nat
  styleType : String
deriving DecidableEq, Repr

/-- The entire contribution of one file body:
`parseMarkdownContent(content, startIndex)` inserts `text` at the running
index and emits `parStyles` at ranges relative to `startIndex`.  This is
the faithful shape of what `marked.lexer` + `processToken` can produce
(text appended in order, style ranges offset from the content start). -/
structure ContentContrib where
  text : String
  parStyles : List ParStyleReq
deriving DecidableEq, Repr

/-- The builder state of `convertToGoogleDocs`: concatenated inserted
text, paragraph-style requests in emission order (absolute ranges), and
`currentIndex`. -/
structure BuildState where
  text : String
  reqs : List ParStyleReq
  idx : Nat
deriving DecidableEq, Repr

/-- `createHeadingSection` (and the title half of `createFileSection`):
insert `title ++ "\n"`, style `[idx, idx + title.length)` as
`HEADING_<lvl>`, advance the index past the inserted text. -/
def emitHeadingSection (st : BuildState) (title : String) (lvl : Nat) : BuildState :=
  { text := st.text ++ (title ++ "\n"),
    reqs := st.reqs ++ [⟨st.idx, st.idx + title.length, "HEADING_" ++ natToDec lvl⟩],
    idx := st.idx + (title ++ "\n").length }

/-- The content half of `createFileSection`: append the body's inserted
text and its paragraph-style requests shifted to the current index. -/
def emitContent (st : BuildState) (cc : ContentContrib) : BuildState :=
  { text := st.text ++ cc.text,
    reqs := st.reqs ++ cc.parStyles.map (fun r => ⟨st.idx + r.start, st.idx + r.stop, r.styleType⟩),
    idx := st.idx + cc.text.length }

/-- The per-node step of `convertToGoogleDocs`: a folder emits its
heading; a file with truthy content emits its heading followed by its
body contribution; other nodes emit nothing. -/
def emitNode (cb : String → ContentContrib) (st : BuildState) (n : FolderNode) : BuildState :=
  match n.kind with
  | .folder => emitHeadingSection st n.name (min (jsOr1 n.level) 6)
  | .file =>
    match n.content with
    | none => st
    | some c =>
      if c == "" then st
      else emitContent (emitHeadingSection st n.name (min (jsOr1 n.level) 6)) (cb c)

/-- The full builder pass: fold over the flattened tree (root excluded)
starting from the cleared document (`currentIndex = 1`). -/
def convertBuild (cb : String → ContentContrib) (root : FolderNode) : BuildState :=
  (flattenNodes root).foldl (emitNode cb) ⟨"", [], 1⟩

/-- Split a character buffer into paragraphs: each segment ends with the
newline that terminates it; a trailing run without a newline is its own
final segment. -/
def splitAfterNl : List Char → List (List Char)
  | [] => []
  | c :: cs =>
    if c = '\n' then ['\n'] :: splitAfterNl cs
    else
      match splitAfterNl cs with
      | [] => [[c]]
      | s :: ss => (c :: s) :: ss

/-- Attach absolute start positions to consecutive segments. -/
def withPositions (start : Nat) : List (List Char) → List (Nat × List Char)
  | [] => []
  | s :: ss => (start, s) :: withPositions (start + s.length) ss

/-- Does a style request's range `[start, stop)` overlap the paragraph
`[ps, pe)`? -/
def reqOverlaps (r : ParStyleReq) (ps pe : Nat) : Bool :=
  decide (r.start < pe) && decide (ps < r.stop)

/-- The named style of a paragraph after all requests applied in order:
the last overlapping `updateParagraphStyle` wins. -/
def resolveStyle (reqs : List ParStyleReq) (ps pe : Nat) : Option String :=
  reqs.foldl (fun acc r => if reqOverlaps r ps pe then some r.styleType else acc) none

/-- The paragraph the document store reports for one positioned segment:
its text as a single run, styled by the last overlapping request
(`NORMAL_TEXT` when untouched). -/
def mkParagraphElt (reqs : List ParStyleReq) (seg : Nat × List Char) : GoogleDocElement :=
  { paragraph := some
      { elements := [{ textRun := some { content := some ⟨seg.2⟩ } }],
        paragraphStyle := some
          { namedStyleType := some ((resolveStyle reqs seg.1 (seg.1 + seg.2.length)).getD "NORMAL_TEXT") } } }

/-- The document read back after the batch update: the inserted text
followed by the store's immovable trailing newline, segmented into
paragraphs at body offset 1, each styled by the emitted requests. -/
def buildGoogleDoc (st : BuildState) : GoogleDoc :=
  { documentId := "", revisionId := "",
    body := some ((withPositions 1 (splitAfterNl (st.text ++ "\n").data)).map (mkParagraphElt st.reqs)) }

/-- The document produced by `convertToGoogleDocs rootNode` for body
contributions `cb`. -/
def convertDocModel (cb : String → ContentContrib) (root : FolderNode) : GoogleDoc :=
  buildGoogleDoc (convertBuild cb root)

/-- A body contribution that keeps paragraph boundaries: its inserted
text is empty or ends with a newline.  `marked` bodies made of plain
paragraphs, headings, blockquotes and spacing satisfy this; bodies
ending in a list do not (the dangling item prefix). -/
def nlTerminated (t : String) : Prop :=
  t = "" ∨ t.data.getLast? = some '\n'

instance (t : String) : Decidable (nlTerminated t) := by
  unfold nlTerminated; infer_instance

/-! ## JSON serialization (`JSON.stringify(value, null, 2)`)

`SyncEngine.handleConflict` serializes the local tree and the remote
section list with `JSON.stringify(_, null, 2)`; the functions below model
that output exactly (two-space pretty printing, key insertion order of
the object literals in `parseFolder` / `parseFile` / `extractStructure`,
JSON string escaping). -/

/-- Lower-case hexadecimal digit. -/
def hexDigit (n : Nat) : Char :=
  if n < 10 then Char.ofNat (48 + n) else Char.ofNat (87 + n)

/-- JSON escaping of a single character, as `JSON.stringify` does it. -/
def jsonEscChar (c : Char) : String :=
  if c == '"' then "\\\""
  else if c == '\\' then "\\\\"
  else if c == '\x08' then "\\b"
  else if c == '\x0c' then "\\f"
  else if c == '\n' then "\\n"
  else if c == '\r' then "\\r"
  else if c == '\t' then "\\t"
  else if c.toNat < 32 then
    "\\u" ++ ⟨[hexDigit (c.toNat / 4096 % 16), hexDigit (c.toNat / 256 % 16),
               hexDigit (c.toNat / 16 % 16), hexDigit (c.toNat % 16)]⟩
  else ⟨[c]⟩

/-- A JSON string literal. -/
def jsonStr (s : String) : String :=
  "\"" ++ String.join (s.data.map jsonEscChar) ++ "\""

/-- `n` spaces. -/
def spaces (n : Nat) : String := ⟨List.replicate n ' '⟩

/-- Join with a separator (`Array.prototype.join` shape). -/
def joinSep (sep : String) : List String → String
  | [] => ""
  | [x] => x
  | x :: xs => x ++ sep ++ joinSep sep xs

/-- Pretty-printed JSON object at nesting depth `d` from already rendered
`"key": value` fragments. -/
def jsonObj (d : Nat) (fields : List String) : String :=
  if fields.isEmpty then "\x7b\x7d"
  else
    "\x7b\n" ++ joinSep ",\n" (fields.map (fun f => spaces (2 * (d + 1)) ++ f)) ++
      "\n" ++ spaces (2 * d) ++ "\x7d"

mutual

/-- `JSON.stringify(node, null, 2)` at depth `d` for a `FolderNode`:
keys in the insertion order of the `parseFolder` / `parseFile` object
literals (`name`, `path`, `type`, `level`, then `children` for folders /
`content` for files); absent optional fields are omitted. -/
def jsonOfNode (d : Nat) : FolderNode → String
  | .mk n p t l cs c =>
    jsonObj d
      (["\"name\": " ++ jsonStr n,
        "\"path\": " ++ jsonStr p,
        "\"type\": " ++ jsonStr t.str] ++
       (match l with
        | none => []
        | some lv => ["\"level\": " ++ natToDec lv]) ++
       (match cs with
        | none => []
        | some children => ["\"children\": " ++ jsonOfNodeList (d + 1) children]) ++
       (match c with
        | none => []
        | some body => ["\"content\": " ++ jsonStr body]))

/-- A JSON array of nodes whose brackets sit at depth `d` (items at
`d + 1`). -/
def jsonOfNodeList (d : Nat) : List FolderNode → String
  | [] => "[]"
  | x :: xs =>
    "[\n" ++ joinSep ",\n" (jsonNodeItems d (x :: xs)) ++ "\n" ++ spaces (2 * d) ++ "]"

/-- The rendered, indented items of a node array at depth `d`. -/
def jsonNodeItems (d : Nat) : List FolderNode → List String
  | [] => []
  | x :: xs => (spaces (2 * (d + 1)) ++ jsonOfNode (d + 1) x) :: jsonNodeItems d xs

end

/-- `SyncEngine.serializeFolderTree`: `JSON.stringify(tree, null, 2)`. -/
def serializeFolderTree (tree : FolderNode) : String := jsonOfNode 0 tree

/-- `JSON.stringify(section, null, 2)` fragment at depth `d`: keys in the
insertion order of the section literal in `extractStructure` (`level`,
`title`, `content`); a `NaN` level renders as `null`. -/
def jsonOfSection (d : Nat) (s : Section) : String :=
  jsonObj d
    ["\"level\": " ++ (match s.level with | none => "null" | some l => natToDec l),
     "\"title\": " ++ jsonStr s.title,
     "\"content\": " ++ jsonStr s.content]

/-- `JSON.stringify(sections, null, 2)`: the remote serialization built
by `handleConflict`. -/
def jsonOfSections (ss : List Section) : String :=
  if ss.isEmpty then "[]"
  else
    "[\n" ++ joinSep ",\n" (ss.map (fun s => spaces 2 ++ jsonOfSection 1 s)) ++ "\n]"

/-! ## Vault model and SyncEngine (`src/sync/sync-engine.ts`, first class)

The Obsidian vault is modelled as an association list from file path to
file content; `getAbstractFileByPath` is lookup, `modify` replaces the
content of an existing entry, `create` appends a new one.  The external
collaborators of `syncExisting` (the parsed folder tree, the fetched
remote document, the re-fetched document after a push, the re-parsed
tree after a pull, the current timestamp) are inputs of the model
environment; the SHA-256 digest is the abstract parameter `h`. -/

/-- A vault: file path ↦ file content. -/
abbrev Vault : Type := List (String × String)

/-- `vault.getAbstractFileByPath` (files only). -/
def vaultGet (v : Vault) (p : String) : Option String :=
  match List.find? (fun e => e.1 == p) v with
  | none => none
  | some e => some e.2

/-- `vault.modify(file, content)`. -/
def vaultModify (v : Vault) (p content : String) : Vault :=
  List.map (fun e => if e.1 == p then (e.1, content) else e) v

/-- `vault.create(path, content)`. -/
def vaultCreate (v : Vault) (p content : String) : Vault :=
  v ++ [(p, content)]

/-- `section.level >= 2` in JS (`NaN >= 2` is false). -/
def sectionLevelGe2 (s : Section) : Bool :=
  match s.level with
  | none => false
  | some l => decide (2 ≤ l)

/-- The body of the `updateLocalFiles` loop for one section: sections at
heading level ≥ 2 with truthy content are written to
`<folder>/<title>.md` (modify if the file exists, else create); all other
sections are skipped. -/
def applySection (folderPath : String) (v : Vault) (s : Section) : Vault :=
  if sectionLevelGe2 s && strTruthy s.content then
    let filePath := folderPath ++ "/" ++ s.title ++ ".md"
    match vaultGet v filePath with
    | some _ => vaultModify v filePath s.content
    | none => vaultCreate v filePath s.content
  else v

/-- `SyncEngine.updateLocalFiles`. -/
def updateLocalFiles (folderPath : String) (v : Vault) (sections : List Section) : Vault :=
  sections.foldl (applySection folderPath) v

/-- `SyncMetadata` from `types.ts`. -/
structure SyncMetadata where
  googleDocId : String
  lastSyncTime : String
  folderPath : String
  contentHash : String
  remoteContentHash : Option String := none
  revisionId : Option String := none
deriving DecidableEq, Repr

/-- `ConflictInfo` from `types.ts` (the `type` field is named `ctype`). -/
structure ConflictInfo where
  ctype : String
  localVersion : String
  remoteVersion : String
  description : String
deriving DecidableEq, Repr

/-- `SyncResult` from `types.ts`. -/
structure SyncResult where
  success : Bool
  message : String
  documentId : Option String := none
  documentUrl : Option String := none
  conflicts : Option (List ConflictInfo) := none
  error : Option String := none
deriving DecidableEq, Repr

/-- `GoogleDocsAPI.getDocumentUrl`. -/
def getDocumentUrl (documentId : String) : String :=
  "https://docs.google.com/document/d/" ++ documentId ++ "/edit"

/-- JS `s !== t` where `t : string | undefined` (`undefined` compares
unequal to every string). -/
def jsStrNeq (s : String) : Option String → Bool
  | none => true
  | some t => s != t

/-- JS `!o` for `o : string | undefined` (falsy iff absent or empty). -/
def optFalsy : Option String → Bool
  | none => true
  | some s => s == ""

/-- The `remoteChanged` classification in `syncExisting` (linked-folder
branch): revision differs, or no stored remote hash (JS truthiness), or
the hash of the re-rendered markdown differs from the stored one. -/
def remoteChangedB (h : String → String) (doc : GoogleDoc) (meta : SyncMetadata) : Bool :=
  jsStrNeq doc.revisionId meta.revisionId ||
    optFalsy meta.remoteContentHash ||
    jsStrNeq (h (convertToMarkdown doc)) meta.remoteContentHash

/-- `SyncEngine.handleConflict`: an unresolved conflict result carrying
the two JSON serializations; no metadata write. -/
def handleConflictModel (tree : FolderNode) (meta : SyncMetadata) (remoteDoc : GoogleDoc) :
    SyncResult :=
  { success := false,
    message := "Conflict detected: both local and remote have changes",
    documentId := some meta.googleDocId,
    documentUrl := some (getDocumentUrl meta.googleDocId),
    conflicts := some
      [{ ctype := "content",
         localVersion := serializeFolderTree tree,
         remoteVersion := jsonOfSections (extractStructure remoteDoc),
         description := "Both local and remote content have changed since last sync" }] }

/-- Environment of one `syncExisting` pass over a linked folder: the
values the engine obtains from its collaborators. -/
structure SyncEnv where
  /-- `parseFolder(folder)` — used both for hashing and by `handleConflict`. -/
  tree : FolderNode
  /-- `folder.path`. -/
  folderPath : String
  /-- the vault contents seen by `updateLocalFiles`. -/
  vault : Vault
  /-- the stored metadata (`readMetadata` succeeded — linked folder). -/
  meta : SyncMetadata
  /-- `api.getDocument(metadata.googleDocId)`. -/
  remoteDoc : GoogleDoc
  /-- `new Date().toISOString()` at metadata-write time. -/
  now : String
  /-- `api.getDocument` response after the push branch rewrote the doc. -/
  pushedDoc : GoogleDoc
  /-- `parseFolder(folder)` re-read after the pull branch wrote files. -/
  treeAfterPull : FolderNode

/-- `SyncEngine.syncExisting` (linked-folder branch): returns the
`SyncResult` together with the persisted metadata and the vault after the
call. -/
def syncExistingModel (h : String → String) (env : SyncEnv) :
    SyncResult × SyncMetadata × Vault :=
  let localHash := h (serializeFolderNode env.tree)
  let remoteContent := convertToMarkdown env.remoteDoc
  let remoteHash := h remoteContent
  let localChanged := localHash != env.meta.contentHash
  let remoteChanged := remoteChangedB h env.remoteDoc env.meta
  if !localChanged && !remoteChanged then
    ({ success := true, message := "Already up to date",
       documentId := some env.meta.googleDocId,
       documentUrl := some (getDocumentUrl env.meta.googleDocId) },
     env.meta, env.vault)
  else if localChanged && remoteChanged then
    (handleConflictModel env.tree env.meta env.remoteDoc, env.meta, env.vault)
  else if localChanged then
    let newHash := h (serializeFolderNode env.tree)
    let pushedHash := h (convertToMarkdown env.pushedDoc)
    ({ success := true, message := "Pushed local changes to Google Docs",
       documentId := some env.meta.googleDocId,
       documentUrl := some (getDocumentUrl env.meta.googleDocId) },
     { env.meta with
       lastSyncTime := env.now, contentHash := newHash,
       remoteContentHash := some pushedHash,
       revisionId := some env.pushedDoc.revisionId },
     env.vault)
  else
    let pulled := updateLocalFiles env.folderPath env.vault (extractStructure env.remoteDoc)
    let newLocalHash := h (serializeFolderNode env.treeAfterPull)
    ({ success := true, message := "Pulled changes from Google Docs",
       documentId := some env.remoteDoc.documentId,
       documentUrl := some (getDocumentUrl env.remoteDoc.documentId) },
     { env.meta with
       lastSyncTime := env.now, contentHash := newLocalHash,
       remoteContentHash := some remoteHash,
       revisionId := some env.remoteDoc.revisionId },
     pulled)

/-! ## Front-matter stripping (`FolderParser.stripFrontMatter`) -/

/-- `FolderParser.stripFrontMatter` with the `gray-matter` library
abstracted as `m`: `m content = some parsed` models a successful
`matter(content)` call with `parsed.content = parsed`, and the source
then returns `parsed.content.trim()`; `m content = none` models a thrown
parse error, and the `catch` returns the original content. -/
def stripFrontMatterWith (m : String → Option String) (content : String) : String :=
  match m content with
  | some parsed => jsTrim parsed
  | none => content

/-- Modelled from the spec: the `content` result of the external
`gray-matter` library (not part of this repository).  Per §4.2 a
front-matter block exists when the first line is exactly the delimiter
marker `---` and a matching closing delimiter line occurs later; the
content is then the remainder after the closing line.  Otherwise the
content is the original text.  The model never throws (`none` is the
thrown-error case, exercised only through `stripFrontMatterWith`). -/
def matterModel (content : String) : Option String :=
  match jsSplitNl content with
  | [] => some content
  | first :: rest =>
    if first == "---" then
      match rest.findIdx? (· == "---") with
      | some k => some (joinNl (rest.drop (k + 1)))
      | none => some content
    else some content

/-- `FolderParser.stripFrontMatter`, with `gray-matter` instantiated by
its spec model. -/
def stripFrontMatter (content : String) : String :=
  stripFrontMatterWith matterModel content

/-! ## Specification-side helpers for the line merge (claim C3) -/

/-- The per-line choice the merge loop makes at index `i` when that index
is not conflicting: the common line if the sides agree, the remote line
if local is unchanged, otherwise the local line. -/
def mergeChoice (ll rl bl : List String) (i : Nat) : String :=
  let localLine := ll.getD i ""
  let remoteLine := rl.getD i ""
  let baseLine := bl.getD i ""
  if localLine == remoteLine then localLine
  else if localLine == baseLine then remoteLine
  else localLine

/-- Index `i` was changed differently on both sides: local and remote
disagree and neither equals the base line. -/
def conflictAt (ll rl bl : List String) (i : Nat) : Prop :=
  ll.getD i "" ≠ rl.getD i "" ∧ ll.getD i "" ≠ bl.getD i "" ∧ rl.getD i "" ≠ bl.getD i ""

instance (ll rl bl : List String) (i : Nat) : Decidable (conflictAt ll rl bl i) := by
  unfold conflictAt; infer_instance

/-- Two trees that differ in exactly one node's single field: the body of
one (file) node, the name of one node, or the level of one node — all
other fields and all other nodes equal.  `child` locates the differing
node inside one child position. -/
inductive SingleFieldDiff : FolderNode → FolderNode → Prop where
  | body {n p t l cs} {b1 b2 : String} (h : b1 ≠ b2) :
      SingleFieldDiff (.mk n p t l cs (some b1)) (.mk n p t l cs (some b2))
  | name {p t l cs c} {n1 n2 : String} (h : n1 ≠ n2) :
      SingleFieldDiff (.mk n1 p t l cs c) (.mk n2 p t l cs c)
  | level {n p t cs c} {l1 l2 : Nat} (h : l1 ≠ l2) :
      SingleFieldDiff (.mk n p t (some l1) cs c) (.mk n p t (some l2) cs c)
  | child {n p t l c} (pre post : List FolderNode) {x y : FolderNode}
      (h : SingleFieldDiff x y) :
      SingleFieldDiff (.mk n p t l (some (pre ++ x :: post)) c)
                      (.mk n p t l (some (pre ++ y :: post)) c)

/-! ## Concrete instances used by counterexamples and witnesses -/

/-- A file node whose body embeds a copy of a sibling's serialization. -/
def cexChildBig : FolderNode := .mk "n" "q" .file (some 2) none (some "x,file:n:2:x")

/-- A plain file node. -/
def cexChildSmall : FolderNode := .mk "n" "q" .file (some 2) none (some "x")

/-- Tree with a single child whose serialization collides with
`cexTreeB`'s two children. -/
def cexTreeA : FolderNode := .mk "r" "p" .folder (some 1) (some [cexChildBig]) none

/-- Tree with two children; serializes identically to `cexTreeA`. -/
def cexTreeB : FolderNode :=
  .mk "r" "p" .folder (some 1) (some [cexChildSmall, cexChildSmall]) none

/-- A level-2 file node with empty content. -/
def emptyFileNode : FolderNode := .mk "note" "root/note.md" .file (some 2) none (some "")

/-- A tree whose only descendant is an empty file at level 2. -/
def emptyFileTree : FolderNode :=
  .mk "root" "root" .folder (some 1) (some [emptyFileNode]) none

/-- A concrete linked-folder environment in which both sides changed
(stored hashes stale, revision bumped). -/
def envC4 : SyncEnv :=
  { tree := .mk "r" "r" .folder (some 1) (some []) none,
    folderPath := "r",
    vault := [],
    meta := { googleDocId := "doc1", lastSyncTime := "t0", folderPath := "r",
              contentHash := "old", remoteContentHash := some "orh",
              revisionId := some "rev1" },
    remoteDoc := { documentId := "doc1", revisionId := "rev2", body := none },
    now := "t1",
    pushedDoc := {},
    treeAfterPull := .mk "r" "r" .folder (some 1) (some []) none }

/-- A concrete digest for witnesses: prefix the input (injective). -/
def prefixDigest (s : String) : String := "H" ++ s

/-- A body-contribution function that inserts nothing for any content. -/
def cbEmptyContrib : String → ContentContrib := fun _ => ⟨"", []⟩

/-- A body-contribution function modelling `marked` on a trailing tight
list: `processList` inserts the bullet prefix without a newline and the
tight list item's text token hits the token dispatcher's no-op default,
leaving the dangling text "• "; ordinary paragraph bodies end in a
newline. -/
def cbListContrib : String → ContentContrib :=
  fun c => if c == "- x" then ⟨"• ", []⟩ else ⟨"hi\n", []⟩

/-- A level-2 file with non-empty body under the root. -/
def wNote : FolderNode := .mk "note" "root/note.md" .file (some 2) none (some "hi")

/-- A root folder containing only `wNote`. -/
def wTree : FolderNode :=
  .mk "root" "root" .folder (some 1) (some [wNote]) none

/-- A root folder with a level-2 file whose body is a trailing tight
list ("- x") followed by a level-2 file "b" with body "hi". -/
def cexListTree : FolderNode :=
  .mk "root" "root" .folder (some 1)
    (some [.mk "a" "root/a.md" .file (some 2) none (some "- x"),
           .mk "b" "root/b.md" .file (some 2) none (some "hi")]) none

/-! # Theorems

Shared helper lemmas first, then one theorem per claim (with witnesses
and counterexamples where required). -/

/-- A section below heading level 2 is skipped by the update loop. -/
theorem applySection_skip_level {s : Section} (fp : String) (v : Vault)
    (h : sectionLevelGe2 s = false) : applySection fp v s = v := by
  simp [applySection, h]

/-- A section with empty content is skipped by the update loop. -/
theorem applySection_skip_content {s : Section} (fp : String) (v : Vault)
    (h : strTruthy s.content = false) : applySection fp v s = v := by
  simp [applySection, h]

/-- Lookup in a non-empty vault checks the head entry first. -/
theorem vaultGet_cons_pos (e : String × String) (es : Vault) (p : String)
    (h : (e.1 == p) = true) : vaultGet (e :: es) p = some e.2 := by
  have hf : List.find? (fun x => x.1 == p) (e :: es) = some e :=
    List.find?_cons_of_pos es h
  simp [vaultGet, hf]

/-- Lookup skips a head entry with a different key. -/
theorem vaultGet_cons_neg (e : String × String) (es : Vault) (p : String)
    (h : (e.1 == p) = false) : vaultGet (e :: es) p = vaultGet es p := by
  have hf : List.find? (fun x => x.1 == p) (e :: es) = List.find? (fun x => x.1 == p) es :=
    List.find?_cons_of_neg es (by simp [h])
  simp [vaultGet, hf]

/-- `vault.modify` unfolds one entry at a time. -/
theorem vaultModify_cons (e : String × String) (es : Vault) (q c : String) :
    vaultModify (e :: es) q c =
      (if e.1 == q then (e.1, c) else e) :: vaultModify es q c := rfl

/-- `vault.modify` does not touch other paths. -/
theorem vaultGet_modify_ne (v : Vault) (q c p : String) (h : p ≠ q) :
    vaultGet (vaultModify v q c) p = vaultGet v p := by
  induction v with
  | nil => rfl
  | cons e es ih =>
    rw [vaultModify_cons]
    by_cases heq : (e.1 == q) = true
    · have he : e.1 = q := by simpa using heq
      have hkey : (e.1 == p) = false := by
        simp only [beq_eq_false_iff_ne, ne_eq, he]
        exact fun hqp => h hqp.symm
      rw [if_pos heq, vaultGet_cons_neg _ _ _ (by simpa using hkey),
        vaultGet_cons_neg _ _ _ hkey]
      exact ih
    · rw [if_neg heq]
      by_cases hp : (e.1 == p) = true
      · rw [vaultGet_cons_pos _ _ _ hp, vaultGet_cons_pos _ _ _ hp]
      · have hp' : (e.1 == p) = false := by simpa using hp
        rw [vaultGet_cons_neg _ _ _ hp', vaultGet_cons_neg _ _ _ hp']
        exact ih

/-- `vault.create` does not touch other paths. -/
theorem vaultGet_create_ne (v : Vault) (q c p : String) (h : p ≠ q) :
    vaultGet (vaultCreate v q c) p = vaultGet v p := by
  induction v with
  | nil =>
    have : ((q, c).1 == p) = false := by
      simp only [beq_eq_false_iff_ne, ne_eq]
      exact fun hqp => h hqp.symm
    show vaultGet ((q, c) :: []) p = vaultGet [] p
    rw [vaultGet_cons_neg _ _ _ this]
  | cons e es ih =>
    show vaultGet (e :: (es ++ [(q, c)])) p = vaultGet (e :: es) p
    by_cases hp : (e.1 == p) = true
    · rw [vaultGet_cons_pos _ _ _ hp, vaultGet_cons_pos _ _ _ hp]
    · have hp' : (e.1 == p) = false := by simpa using hp
      rw [vaultGet_cons_neg _ _ _ hp', vaultGet_cons_neg _ _ _ hp']
      exact ih

/-- C2.  `detectConflict` is true exactly when both sides differ from the
base hash and from each other; in particular on the three quoted
examples. -/
theorem detectConflict_spec :
    (∀ l r b : String, detectConflict l r b = true ↔ l ≠ b ∧ r ≠ b ∧ l ≠ r) ∧
    detectConflict "h1" "h2" "h3" = true ∧
    detectConflict "h1" "h2" "h2" = false ∧
    detectConflict "h1" "h1" "h1" = false := by
  refine ⟨fun l r b => ?_, by decide, by decide, by decide⟩
  simp [detectConflict, and_assoc]

/-- C7.  `generateDiff` on the three quoted inputs: a pure addition gives
exactly one `added` diff at line 3 with the new line, a deletion yields a
`removed` diff, and a changed middle line yields a `modified` diff. -/
theorem generateDiff_examples :
    generateDiff "L1\nL2" "L1\nL2\nL3" =
      [{ ctype := .added, location := "line 3", newValue := some "L3" }] ∧
    (∃ d ∈ generateDiff "L1\nL2\nL3" "L1\nL3", d.ctype = .removed) ∧
    (∃ d ∈ generateDiff "L1\nL2\nL3" "L1\nModified\nL3", d.ctype = .modified) := by
  refine ⟨by decide, ?_, ?_⟩
  · exact ⟨{ ctype := .removed, location := "line 2", oldValue := some "L2" }, by decide, rfl⟩
  · exact ⟨{ ctype := .modified, location := "line 2", oldValue := some "L2",
             newValue := some "Modified" }, by decide, rfl⟩

/-- C8 (amended).  When the front-matter library throws, the stripper
returns the original text unchanged; when the library finds no block (its
`content` is the whole original), the stripper returns the original
*trimmed of surrounding whitespace* — unchanged only when the original
has no leading/trailing whitespace. -/
theorem stripFrontMatter_behavior (m : String → Option String) (content : String) :
    (m content = none → stripFrontMatterWith m content = content) ∧
    (m content = some content → stripFrontMatterWith m content = jsTrim content) := by
  constructor <;> intro h <;> simp [stripFrontMatterWith, h]

/-- Witness for C8's theorem at a concrete input on which the modelled
`gray-matter` finds no block. -/
theorem stripFrontMatter_behavior_witness :
    stripFrontMatterWith matterModel "abc" = jsTrim "abc" :=
  (stripFrontMatter_behavior matterModel "abc").2 (by decide)

/-- C8 counterexample.  `"Hello \n"` contains no front-matter block
(`gray-matter` returns it whole), yet the stripper returns `"Hello"`,
which differs from the original: the claim that the original text is
returned *unchanged* is false. -/
theorem stripFrontMatter_cex :
    matterModel "Hello \n" = some "Hello \n" ∧
    stripFrontMatter "Hello \n" = "Hello" ∧
    ("Hello" : String) ≠ "Hello \n" := by
  refine ⟨by decide, by decide, by decide⟩

/-- C9.  The pull-branch file update ignores every section whose heading
level is below 2: dropping those sections leaves the resulting vault
unchanged, so no file is created or modified for them. -/
theorem updateLocalFiles_level_filter (fp : String) (v : Vault) (ss : List Section) :
    updateLocalFiles fp v ss = updateLocalFiles fp v (ss.filter sectionLevelGe2) := by
  induction ss generalizing v with
  | nil => rfl
  | cons s rest ih =>
    by_cases h : sectionLevelGe2 s = true
    · simp [updateLocalFiles, List.filter, h] at ih ⊢
      exact ih (applySection fp v s)
    · have h' : sectionLevelGe2 s = false := by simpa using h
      simp [updateLocalFiles, List.filter, h', applySection_skip_level fp v h'] at ih ⊢
      exact ih v

/-- C10.  During a pull, sections with empty content are skipped
entirely (dropping them changes nothing), and any path not of the form
`<folder>/<title>.md` for some level-≥2, non-empty-content section is
left untouched by the update loop. -/
theorem updateLocalFiles_frame (fp : String) (v : Vault) (ss : List Section) :
    updateLocalFiles fp v ss =
      updateLocalFiles fp v (ss.filter (fun s => strTruthy s.content)) ∧
    ∀ p : String,
      (∀ s ∈ ss, ¬(sectionLevelGe2 s = true ∧ strTruthy s.content = true ∧
        p = fp ++ "/" ++ s.title ++ ".md")) →
      vaultGet (updateLocalFiles fp v ss) p = vaultGet v p := by
  constructor
  · induction ss generalizing v with
    | nil => rfl
    | cons s rest ih =>
      by_cases h : strTruthy s.content = true
      · simp [updateLocalFiles, List.filter, h] at ih ⊢
        exact ih (applySection fp v s)
      · have h' : strTruthy s.content = false := by simpa using h
        simp [updateLocalFiles, List.filter, h', applySection_skip_content fp v h'] at ih ⊢
        exact ih v
  · induction ss generalizing v with
    | nil => intro p _; rfl
    | cons s rest ih =>
      intro p hp
      have hs := hp s (by simp)
      have hrest : ∀ s' ∈ rest, ¬(sectionLevelGe2 s' = true ∧ strTruthy s'.content = true ∧
          p = fp ++ "/" ++ s'.title ++ ".md") := fun s' hmem => hp s' (by simp [hmem])
      have step : vaultGet (applySection fp v s) p = vaultGet v p := by
        by_cases h2 : sectionLevelGe2 s = true
        · by_cases hc : strTruthy s.content = true
          · have hne : p ≠ fp ++ "/" ++ s.title ++ ".md" := by
              intro he; exact hs ⟨h2, hc, he⟩
            simp only [applySection, h2, hc, Bool.and_self]
            cases hget : vaultGet v (fp ++ "/" ++ s.title ++ ".md") with
            | none => simp [hget, vaultGet_create_ne v _ _ p hne]
            | some _ => simp [hget, vaultGet_modify_ne v _ _ p hne]
          · simp [applySection_skip_content fp v (by simpa using hc)]
        · simp [applySection_skip_level fp v (by simpa using h2)]
      calc vaultGet (updateLocalFiles fp (applySection fp v s) rest) p
          = vaultGet (applySection fp v s) p := ih (applySection fp v s) p hrest
        _ = vaultGet v p := step

/-- Witness for C10's theorem on a concrete vault and section list
(one modified file, one low-level section, one empty section, one
untouched unrelated file). -/
theorem updateLocalFiles_frame_witness :
    updateLocalFiles "f" [("f/a.md", "old"), ("g", "z")]
        [⟨some 2, "a", "new"⟩, ⟨some 1, "b", "c"⟩, ⟨some 3, "e", ""⟩] =
      updateLocalFiles "f" [("f/a.md", "old"), ("g", "z")]
        (List.filter (fun s => strTruthy s.content)
          [⟨some 2, "a", "new"⟩, ⟨some 1, "b", "c"⟩, ⟨some 3, "e", ""⟩]) ∧
    vaultGet (updateLocalFiles "f" [("f/a.md", "old"), ("g", "z")]
        [⟨some 2, "a", "new"⟩, ⟨some 1, "b", "c"⟩, ⟨some 3, "e", ""⟩]) "g" =
      vaultGet [("f/a.md", "old"), ("g", "z")] "g" := by
  refine ⟨(updateLocalFiles_frame "f" _ _).1, (updateLocalFiles_frame "f" _ _).2 "g" ?_⟩
  decide

/-- Shifting an existential over an initial segment by one. -/
theorem exists_lt_succ_shift (P : Nat → Prop) (cnt i : Nat) :
    (∃ k, k < cnt + 1 ∧ P (i + k)) ↔ P i ∨ ∃ k, k < cnt ∧ P (i + 1 + k) := by
  constructor
  · rintro ⟨k, hk, hp⟩
    cases k with
    | zero => exact Or.inl (by simpa using hp)
    | succ k =>
      refine Or.inr ⟨k, by omega, ?_⟩
      have he : i + 1 + k = i + (k + 1) := by omega
      rw [he]; exact hp
  · rintro (hp | ⟨k, hk, hp⟩)
    · exact ⟨0, by omega, by simpa using hp⟩
    · refine ⟨k + 1, by omega, ?_⟩
      have he : i + (k + 1) = i + 1 + k := by omega
      rw [he]; exact hp

/-- Closed form of the `tryLineMerge` loop. -/
theorem tryLineMergeLoop_spec (ll rl bl : List String) :
    ∀ (cnt i : Nat) (acc : List String),
      tryLineMergeLoop ll rl bl cnt i acc =
        if ∃ k, k < cnt ∧ conflictAt ll rl bl (i + k) then none
        else some (acc.reverse ++ (List.range cnt).map (fun k => mergeChoice ll rl bl (i + k))) := by
  intro cnt
  induction cnt with
  | zero => intro i acc; simp [tryLineMergeLoop]
  | succ cnt ih =>
    intro i acc
    have hrange : (List.range (cnt + 1)).map (fun k => mergeChoice ll rl bl (i + k)) =
        mergeChoice ll rl bl i ::
          (List.range cnt).map (fun k => mergeChoice ll rl bl (i + 1 + k)) := by
      rw [List.range_succ_eq_map, List.map_cons, List.map_map]
      refine congrArg₂ _ (by simp) (List.map_congr_left fun k _ => ?_)
      have he : i + 1 + k = i + (k + 1) := by omega
      simp [Function.comp, he]
    by_cases h1 : (ll.getD i "" == rl.getD i "") = true
    · have hnc : ¬conflictAt ll rl bl i := fun hc => hc.1 (by simpa using h1)
      have hch : mergeChoice ll rl bl i = ll.getD i "" := by
        simp only [mergeChoice, h1, if_true]
      simp only [tryLineMergeLoop, h1, if_true]
      rw [ih (i + 1) (ll.getD i "" :: acc)]
      by_cases hc2 : ∃ k, k < cnt ∧ conflictAt ll rl bl (i + 1 + k)
      · have hcond : ∃ k, k < cnt + 1 ∧ conflictAt ll rl bl (i + k) :=
          (exists_lt_succ_shift _ cnt i).2 (Or.inr hc2)
        simp [hc2, hcond]
      · have hcond : ¬∃ k, k < cnt + 1 ∧ conflictAt ll rl bl (i + k) := fun hx =>
          ((exists_lt_succ_shift _ cnt i).1 hx).elim hnc hc2
        simp [hc2, hcond, hrange, hch, List.reverse_cons, List.append_assoc]
    · by_cases h2 : (ll.getD i "" == bl.getD i "") = true
      · have hnc : ¬conflictAt ll rl bl i := fun hc => hc.2.1 (by simpa using h2)
        have hch : mergeChoice ll rl bl i = rl.getD i "" := by
          simp only [mergeChoice, h1, h2, if_true, if_false, Bool.false_eq_true]
        simp only [tryLineMergeLoop, h1, h2, if_true, if_false, Bool.false_eq_true]
        rw [ih (i + 1) (rl.getD i "" :: acc)]
        by_cases hc2 : ∃ k, k < cnt ∧ conflictAt ll rl bl (i + 1 + k)
        · have hcond : ∃ k, k < cnt + 1 ∧ conflictAt ll rl bl (i + k) :=
            (exists_lt_succ_shift _ cnt i).2 (Or.inr hc2)
          simp [hc2, hcond]
        · have hcond : ¬∃ k, k < cnt + 1 ∧ conflictAt ll rl bl (i + k) := fun hx =>
            ((exists_lt_succ_shift _ cnt i).1 hx).elim hnc hc2
          simp [hc2, hcond, hrange, hch, List.reverse_cons, List.append_assoc]
      · by_cases h3 : (rl.getD i "" == bl.getD i "") = true
        · have hnc : ¬conflictAt ll rl bl i := fun hc => hc.2.2 (by simpa using h3)
          have hch : mergeChoice ll rl bl i = ll.getD i "" := by
            simp only [mergeChoice, h1, h2, if_false, Bool.false_eq_true]
          simp only [tryLineMergeLoop, h1, h2, h3, if_true, if_false, Bool.false_eq_true]
          rw [ih (i + 1) (ll.getD i "" :: acc)]
          by_cases hc2 : ∃ k, k < cnt ∧ conflictAt ll rl bl (i + 1 + k)
          · have hcond : ∃ k, k < cnt + 1 ∧ conflictAt ll rl bl (i + k) :=
              (exists_lt_succ_shift _ cnt i).2 (Or.inr hc2)
            simp [hc2, hcond]
          · have hcond : ¬∃ k, k < cnt + 1 ∧ conflictAt ll rl bl (i + k) := fun hx =>
              ((exists_lt_succ_shift _ cnt i).1 hx).elim hnc hc2
            simp [hc2, hcond, hrange, hch, List.reverse_cons, List.append_assoc]
        · have hc : conflictAt ll rl bl i :=
            ⟨by simpa using h1, by simpa using h2, by simpa using h3⟩
          have hcond : ∃ k, k < cnt + 1 ∧ conflictAt ll rl bl (i + k) :=
            ⟨0, by omega, by simpa using hc⟩
          simp only [tryLineMergeLoop, h1, h2, h3, if_false, Bool.false_eq_true]
          simp [hcond]



/-- C3.  `autoResolve` returns remote when local is unchanged, local when
remote is unchanged, the common value when both changed identically, and
otherwise the line merge, which fails as a whole (`none`) exactly when
some line was changed differently on both sides and otherwise keeps, per
line, the common/remote/local line as described. -/
theorem autoResolve_spec (l r b : String) :
    (l = b → autoResolve l r b = some r) ∧
    (l ≠ b → r = b → autoResolve l r b = some l) ∧
    (l ≠ b → r ≠ b → l = r → autoResolve l r b = some l) ∧
    (l ≠ b → r ≠ b → l ≠ r →
      autoResolve l r b =
        if ∃ k, k < max (max (jsSplitNl l).length (jsSplitNl r).length) (jsSplitNl b).length ∧
            conflictAt (jsSplitNl l) (jsSplitNl r) (jsSplitNl b) k
        then none
        else some (joinNl ((List.range
            (max (max (jsSplitNl l).length (jsSplitNl r).length) (jsSplitNl b).length)).map
          (mergeChoice (jsSplitNl l) (jsSplitNl r) (jsSplitNl b))))) := by
  refine ⟨?_, ?_, ?_, ?_⟩
  · intro h; simp [autoResolve, h]
  · intro h1 h2; simp [autoResolve, h1, h2]
  · intro h1 h2 h3; simp [autoResolve, h1, h2, h3]
  · intro h1 h2 h3
    simp only [autoResolve, beq_iff_eq, h1, h2, h3, if_false]
    unfold tryLineMerge
    dsimp only
    rw [tryLineMergeLoop_spec]
    simp only [Nat.zero_add]
    by_cases hc : ∃ k, k < max (max (jsSplitNl l).length (jsSplitNl r).length)
        (jsSplitNl b).length ∧ conflictAt (jsSplitNl l) (jsSplitNl r) (jsSplitNl b) k
    · rw [if_pos hc, if_pos hc]
      rfl
    · rw [if_neg hc, if_neg hc]
      simp

/-- Witness for C3's theorem: the spec's three-way example (local edits
line 2, remote edits line 3) merges through the line-merge branch. -/
theorem autoResolve_spec_witness :
    autoResolve "L1\nX\nL3" "L1\nL2\nY" "L1\nL2\nL3" = some "L1\nX\nY" := by
  have h := (autoResolve_spec "L1\nX\nL3" "L1\nL2\nY" "L1\nL2\nL3").2.2.2
    (by decide) (by decide) (by decide)
  rw [h]
  rw [if_neg (by decide)]
  rfl

/-- C5.  In the linked-folder branch the remote side is classified as
changed exactly when the revision differs from the stored one, or no
remote content hash is stored, or the hash of the document rendered to
markdown differs from the stored hash.  (The digest of the rendered
markdown is a SHA-256 hex string, hence never empty — the hypothesis.) -/
theorem remoteChanged_iff (h : String → String) (doc : GoogleDoc) (meta : SyncMetadata)
    (hne : h (convertToMarkdown doc) ≠ "") :
    (remoteChangedB h doc meta = true ↔
      meta.revisionId ≠ some doc.revisionId ∨
      meta.remoteContentHash = none ∨
      meta.remoteContentHash ≠ some (h (convertToMarkdown doc))) := by
  cases hrev : meta.revisionId with
  | none => simp [remoteChangedB, jsStrNeq, hrev]
  | some rv =>
    cases hhash : meta.remoteContentHash with
    | none => simp [remoteChangedB, jsStrNeq, optFalsy, hrev, hhash]
    | some sh =>
      by_cases hse : sh = ""
      · subst hse
        simp [remoteChangedB, jsStrNeq, optFalsy, hrev, hhash]
        exact Or.inr (fun he => hne he.symm)
      · simp [remoteChangedB, jsStrNeq, optFalsy, hrev, hhash, hse]
        constructor
        · rintro (hd | hd)
          · exact Or.inl (fun he => hd he.symm)
          · exact Or.inr (fun he => hd he.symm)
        · rintro (hd | hd)
          · exact Or.inl (fun he => hd he.symm)
          · exact Or.inr (fun he => hd he.symm)

/-- Witness for C5's theorem: stored revision differs from the fetched
one, so the remote side is classified as changed. -/
theorem remoteChanged_iff_witness :
    remoteChangedB prefixDigest { documentId := "doc1", revisionId := "rev2", body := none }
        { googleDocId := "doc1", lastSyncTime := "t0", folderPath := "r",
          contentHash := "old", remoteContentHash := some "orh",
          revisionId := some "rev1" } = true ↔
      (some "rev1" : Option String) ≠ some "rev2" ∨
      (some "orh" : Option String) = none ∨
      (some "orh" : Option String) ≠
        some (prefixDigest (convertToMarkdown
          { documentId := "doc1", revisionId := "rev2", body := none })) :=
  remoteChanged_iff prefixDigest _ _ (by decide)

/-- C4.  When a linked folder has both local and remote changes,
`syncExisting` returns an unsuccessful result carrying exactly one
`ConflictInfo` (the local tree as pretty-printed JSON and the remote
section list as pretty-printed JSON), and neither the stored metadata nor
the vault is modified. -/
theorem syncExisting_conflict (h : String → String) (env : SyncEnv)
    (hl : h (serializeFolderNode env.tree) ≠ env.meta.contentHash)
    (hr : remoteChangedB h env.remoteDoc env.meta = true) :
    (syncExistingModel h env).1.success = false ∧
    (syncExistingModel h env).1.conflicts = some
      [{ ctype := "content",
         localVersion := serializeFolderTree env.tree,
         remoteVersion := jsonOfSections (extractStructure env.remoteDoc),
         description := "Both local and remote content have changed since last sync" }] ∧
    (syncExistingModel h env).2.1 = env.meta ∧
    (syncExistingModel h env).2.2 = env.vault := by
  have hlb : (h (serializeFolderNode env.tree) != env.meta.contentHash) = true := by
    simpa using hl
  simp [syncExistingModel, hlb, hr, handleConflictModel]

/-- Witness for C4's theorem in a concrete both-sides-changed
environment. -/
theorem syncExisting_conflict_witness :
    (syncExistingModel prefixDigest envC4).1.success = false ∧
    (syncExistingModel prefixDigest envC4).1.conflicts = some
      [{ ctype := "content",
         localVersion := serializeFolderTree envC4.tree,
         remoteVersion := jsonOfSections (extractStructure envC4.remoteDoc),
         description := "Both local and remote content have changed since last sync" }] ∧
    (syncExistingModel prefixDigest envC4).2.1 = envC4.meta ∧
    (syncExistingModel prefixDigest envC4).2.2 = envC4.vault :=
  syncExisting_conflict prefixDigest envC4 (by decide) (by decide)

theorem strData_append (a b : String) : (a ++ b).data = a.data ++ b.data := rfl

/-- Decimal digits evaluate back to the encoded number. -/
theorem decVal_natToDecAux : ∀ (f n : Nat), n < f → decVal (natToDecAux f n) = n := by
  intro f
  induction f with
  | zero => intro n hn; omega
  | succ f ih =>
    intro n hn
    by_cases h10 : n < 10
    · have hd : (decDigitChar n).toNat - 48 = n := by
        interval_cases n <;> decide
      simp [natToDecAux, h10, decVal, hd]
    · have hdiv : n / 10 < f := by
        have h1 : n / 10 < n := Nat.div_lt_self (by omega) (by omega)
        omega
      have hm : n % 10 < 10 := Nat.mod_lt _ (by omega)
      have hd : (decDigitChar (n % 10)).toNat - 48 = n % 10 := by
        set m := n % 10 with hmdef
        interval_cases m <;> decide
      simp only [natToDecAux, h10, if_false]
      simp only [decVal, List.foldl_append, List.foldl_cons, List.foldl_nil]
      have := ih (n / 10) hdiv
      simp only [decVal] at this
      rw [this, hd]
      omega

/-- The JS decimal rendering is injective. -/
theorem natToDec_inj {a b : Nat} (h : natToDec a = natToDec b) : a = b := by
  have ha := decVal_natToDecAux (a + 1) a (by omega)
  have hb := decVal_natToDecAux (b + 1) b (by omega)
  have : (natToDec a).data = (natToDec b).data := congrArg String.data h
  simp only [natToDec] at this
  rw [← ha, ← hb, this]

/-- Normal form of a node's serialization at the character-list level. -/
theorem serialize_data (n p : String) (t : NodeKind) (l : Option Nat)
    (cs : Option (List FolderNode)) (c : Option String) :
    (serializeFolderNode (.mk n p t l cs c)).data =
      (NodeKind.str t).data ++ (':' :: (n.data ++ (':' :: ((levelStr l).data ++
        ((contentPart c).data ++ (childrenPart cs).data))))) := by
  show ((NodeKind.str t ++ ":" ++ n ++ ":" ++ levelStr l ++ contentPart c ++
    childrenPart cs)).data = _
  simp [strData_append, List.append_assoc]

/-- A spliced child with a different serialization changes the
serialization of the whole child list. -/
theorem serializeChildren_splice (x y : FolderNode)
    (hxy : serializeFolderNode x ≠ serializeFolderNode y) :
    ∀ (pre post : List FolderNode),
      serializeChildren (pre ++ x :: post) ≠ serializeChildren (pre ++ y :: post) := by
  intro pre
  induction pre with
  | nil =>
    intro post he
    have hd := congrArg String.data he
    simp only [List.nil_append, serializeChildren, strData_append, List.append_assoc] at hd
    exact hxy (String.ext (List.append_cancel_right hd))
  | cons z pre ih =>
    intro post he
    have hd := congrArg String.data he
    simp only [List.cons_append, serializeChildren, strData_append, List.append_assoc] at hd
    simp only [List.append_cancel_left_eq, List.cons.injEq, List.nil_append, true_and] at hd
    have : serializeChildren (pre ++ x :: post) = serializeChildren (pre ++ y :: post) := by
      apply String.ext
      simpa [strData_append] using hd
    exact ih post this

/-- Any single-field difference (body, name or level) changes the
serialization. -/
theorem serialize_ne_of_diff {t1 t2 : FolderNode} (hd : SingleFieldDiff t1 t2) :
    serializeFolderNode t1 ≠ serializeFolderNode t2 := by
  induction hd with
  | body h =>
    intro he
    have hdd := congrArg String.data he
    rw [serialize_data, serialize_data] at hdd
    simp only [List.append_cancel_left_eq, List.append_cancel_right_eq,
      List.cons.injEq, true_and] at hdd
    rename_i b1 b2
    by_cases hb1 : b1 = "" <;> by_cases hb2 : b2 = "" <;>
      simp [contentPart, hb1, hb2, strData_append] at hdd
    · exact h (hb2 ▸ hb1)
    · exact h (String.ext hdd)
  | name h =>
    intro he
    have hdd := congrArg String.data he
    rw [serialize_data, serialize_data] at hdd
    simp only [List.append_cancel_left_eq, List.append_cancel_right_eq,
      List.cons.injEq, true_and] at hdd
    exact h (String.ext hdd)
  | level h =>
    intro he
    have hdd := congrArg String.data he
    rw [serialize_data, serialize_data] at hdd
    simp only [List.append_cancel_left_eq, List.append_cancel_right_eq,
      List.cons.injEq, true_and, levelStr] at hdd
    exact h (natToDec_inj (String.ext hdd))
  | child pre post h ih =>
    intro he
    have hdd := congrArg String.data he
    rw [serialize_data, serialize_data] at hdd
    simp only [List.append_cancel_left_eq, List.append_cancel_right_eq,
      List.cons.injEq, true_and] at hdd
    rename_i x y
    have he1 : (pre ++ x :: post).isEmpty = false := by simp
    have he2 : (pre ++ y :: post).isEmpty = false := by simp
    simp only [childrenPart, he1, he2, Bool.false_eq_true, if_false,
      strData_append, List.append_assoc, List.append_cancel_left_eq,
      List.append_cancel_right_eq] at hdd
    exact serializeChildren_splice x y ih pre post (String.ext hdd)



/-- C6 (amended).  For a collision-free digest, changing a single node's
body, name, or level anywhere in the tree changes the serialize-then-digest
hash (child reordering or membership changes need not — see the
counterexample). -/
theorem calculateFolderHash_sensitive (digest : String → String)
    (hinj : Function.Injective digest) (t1 t2 : FolderNode)
    (hd : SingleFieldDiff t1 t2) :
    calculateFolderHashWith digest t1 ≠ calculateFolderHashWith digest t2 := by
  intro he
  exact serialize_ne_of_diff hd (hinj he)

/-- Witness for C6's amended theorem: two file nodes differing only in
the body, hashed with the injective prefixing digest. -/
theorem calculateFolderHash_sensitive_witness :
    calculateFolderHashWith prefixDigest (.mk "f" "p" .file (some 2) none (some "a")) ≠
      calculateFolderHashWith prefixDigest (.mk "f" "p" .file (some 2) none (some "b")) :=
  calculateFolderHash_sensitive prefixDigest
    (by intro a b hab
        exact String.ext (List.append_cancel_left (congrArg String.data hab)))
    _ _ (.body (by decide))

/-- C6 counterexample.  `cexTreeA` (one child) and `cexTreeB` (two
children) differ in the membership of the root's children, yet their
serializations — and hence their serialize-then-digest hashes, for any
digest — coincide, because the serializer's separators can be embedded in
file bodies. -/
theorem hashSensitivity_cex :
    serializeFolderNode cexTreeA = serializeFolderNode cexTreeB ∧
    calculateFolderHashWith (fun s => s) cexTreeA =
      calculateFolderHashWith (fun s => s) cexTreeB ∧
    cexTreeA ≠ cexTreeB := by
  refine ⟨by decide, by decide, fun he => ?_⟩
  exact absurd (congrArg (fun t => Option.map List.length t.children) he) (by decide)

/-- One step of `extractLoop` on an arbitrary element: the `sections`
accumulator grows by a suffix `Δ` independent of its old value, and an
open section either stays open with its title and level intact or is
flushed into `Δ`. -/
theorem extractLoop_cons (e : GoogleDocElement) (es : List GoogleDocElement)
    (cur : Option Section) :
    ∃ (Δ : List Section) (cur2 : Option Section),
      (∀ secs, extractLoop (e :: es) secs cur = extractLoop es (secs ++ Δ) cur2) ∧
      ∀ c, cur = some c →
        (∃ c2, cur2 = some c2 ∧ c2.title = c.title ∧ c2.level = c.level) ∨ c ∈ Δ := by
  cases hp : e.paragraph with
  | none =>
    refine ⟨[], cur, fun secs => ?_, fun c hc => Or.inl ⟨c, by simp [hc]⟩⟩
    simp [extractLoop, hp]
  | some p =>
    cases hst : styleTypeOf p with
    | some st =>
      by_cases hb : (strTruthy st && jsStartsWith st "HEADING_") = true
      · refine ⟨cur.toList, some ⟨parseHeadingLevel st, jsTrim (getParagraphText p), ""⟩,
          fun secs => ?_, fun c hc => Or.inr (by simp [hc])⟩
        simp [extractLoop, hp, hst, hb]
      · cases cur with
        | none =>
          refine ⟨[], none, fun secs => ?_, by simp⟩
          simp [extractLoop, hp, hst, hb]
        | some cs =>
          by_cases ht : (jsTrim (getParagraphText p) != "") = true
          · by_cases hl : (jsTrim (convertParagraph p) != "") = true
            · refine ⟨[], some { cs with content := cs.content ++
                  (if cs.content != "" then "\n\n" else "") ++ convertParagraph p },
                fun secs => ?_, fun c hc => ?_⟩
              · simp [extractLoop, hp, hst, hb, ht, hl]
              · injection hc with hh
                subst hh
                exact Or.inl ⟨_, rfl, rfl, rfl⟩
            · refine ⟨[], some cs, fun secs => ?_, fun c hc => ?_⟩
              · simp [extractLoop, hp, hst, hb, ht, hl]
              · injection hc with hh
                subst hh
                exact Or.inl ⟨cs, rfl, rfl, rfl⟩
          · refine ⟨[], some cs, fun secs => ?_, fun c hc => ?_⟩
            · simp [extractLoop, hp, hst, hb, ht]
            · injection hc with hh
              subst hh
              exact Or.inl ⟨cs, rfl, rfl, rfl⟩
    | none =>
      cases cur with
      | none =>
        refine ⟨[], none, fun secs => ?_, by simp⟩
        simp [extractLoop, hp, hst]
      | some cs =>
        by_cases ht : (jsTrim (getParagraphText p) != "") = true
        · by_cases hl : (jsTrim (convertParagraph p) != "") = true
          · refine ⟨[], some { cs with content := cs.content ++
                (if cs.content != "" then "\n\n" else "") ++ convertParagraph p },
              fun secs => ?_, fun c hc => ?_⟩
            · simp [extractLoop, hp, hst, ht, hl]
            · injection hc with hh
              subst hh
              exact Or.inl ⟨_, rfl, rfl, rfl⟩
          · refine ⟨[], some cs, fun secs => ?_, fun c hc => ?_⟩
            · simp [extractLoop, hp, hst, ht, hl]
            · injection hc with hh
              subst hh
              exact Or.inl ⟨cs, rfl, rfl, rfl⟩
        · refine ⟨[], some cs, fun secs => ?_, fun c hc => ?_⟩
          · simp [extractLoop, hp, hst, ht]
          · injection hc with hh
            subst hh
            exact Or.inl ⟨cs, rfl, rfl, rfl⟩



/-- The `sections` accumulator only ever grows: the loop's result is the
accumulator followed by what the loop produces from an empty one. -/
theorem extractLoop_append (es : List GoogleDocElement) :
    ∀ (secs : List Section) (cur : Option Section),
      extractLoop es secs cur = secs ++ extractLoop es [] cur := by
  induction es with
  | nil => intro secs cur; simp [extractLoop]
  | cons e es ih =>
    intro secs cur
    obtain ⟨Δ, cur2, hstep, _⟩ := extractLoop_cons e es cur
    rw [hstep secs, hstep [], ih (secs ++ Δ), ih ([] ++ Δ)]
    simp [List.append_assoc]

/-- Sections already accumulated survive to the final result. -/
theorem extractLoop_mem_of_mem (es : List GoogleDocElement) (secs : List Section)
    (cur : Option Section) {s : Section} (h : s ∈ secs) :
    s ∈ extractLoop es secs cur := by
  rw [extractLoop_append]
  exact List.mem_append_left _ h

/-- An open section is eventually flushed with its title and level
intact. -/
theorem extractLoop_flush (es : List GoogleDocElement) :
    ∀ (secs : List Section) (c : Section),
      ∃ s ∈ extractLoop es secs (some c), s.title = c.title ∧ s.level = c.level := by
  induction es with
  | nil => intro secs c; exact ⟨c, by simp [extractLoop], rfl, rfl⟩
  | cons e es ih =>
    intro secs c
    obtain ⟨Δ, cur2, hstep, hpres⟩ := extractLoop_cons e es (some c)
    rw [hstep secs]
    rcases hpres c rfl with ⟨c2, rfl, ht, hl⟩ | hmem
    · obtain ⟨s, hs, hst, hsl⟩ := ih (secs ++ Δ) c2
      exact ⟨s, hs, hst.trans ht, hsl.trans hl⟩
    · exact ⟨c, extractLoop_mem_of_mem es _ cur2 (List.mem_append_right _ hmem), rfl, rfl⟩

/-- A heading paragraph anywhere in the element list yields a section
carrying its trimmed text as title and its parsed level. -/
theorem extractLoop_heading (p : GoogleDocParagraph) (st : String)
    (hst : styleTypeOf p = some st)
    (hb : (strTruthy st && jsStartsWith st "HEADING_") = true) :
    ∀ (pre post : List GoogleDocElement) (secs : List Section) (cur : Option Section),
      ∃ s ∈ extractLoop (pre ++ { paragraph := some p } :: post) secs cur,
        s.title = jsTrim (getParagraphText p) ∧ s.level = parseHeadingLevel st := by
  intro pre
  induction pre with
  | nil =>
    intro post secs cur
    simp only [List.nil_append, extractLoop, hst, hb, if_true]
    exact extractLoop_flush post (secs ++ cur.toList)
      ⟨parseHeadingLevel st, jsTrim (getParagraphText p), ""⟩
  | cons e pre ih =>
    intro post secs cur
    rw [List.cons_append]
    obtain ⟨Δ, cur2, hstep, _⟩ := extractLoop_cons e (pre ++ { paragraph := some p } :: post) cur
    rw [hstep secs]
    exact ih post (secs ++ Δ) cur2



/-- Dropping newlines first does not change a whitespace `dropWhile`. -/
theorem dropWhile_nl_ws (l : List Char) :
    (l.dropWhile (· == '\n')).dropWhile jsIsWS = l.dropWhile jsIsWS := by
  induction l with
  | nil => rfl
  | cons c cs ih =>
    by_cases hc : (c == '\n') = true
    · have hw : jsIsWS c = true := by
        have hcc : c = '\n' := by simpa using hc
        simp [jsIsWS, hcc]
      simp [List.dropWhile_cons, hc, hw, ih]
    · simp [List.dropWhile_cons, hc]

/-- Trimming after stripping trailing newlines is just trimming. -/
theorem jsTrim_stripTrailingNl (s : String) : jsTrim (stripTrailingNl s) = jsTrim s := by
  unfold jsTrim stripTrailingNl dropRightWhile
  simp [List.reverse_reverse, dropWhile_nl_ws]

/-- Stripping trailing newlines swallows an appended newline. -/
theorem stripTrailingNl_append_nl (s : String) :
    stripTrailingNl (s ++ "\n") = stripTrailingNl s := by
  unfold stripTrailingNl dropRightWhile
  have hd : (s ++ "\n").data = s.data ++ ['\n'] := rfl
  rw [hd]
  simp [List.reverse_append]

/-- The title recovered from a heading paragraph's inserted text
(`name ++ "\n"`) is the trimmed name. -/
theorem jsTrim_strip_name (name : String) :
    jsTrim (stripTrailingNl (name ++ "\n")) = jsTrim name := by
  rw [stripTrailingNl_append_nl, jsTrim_stripTrailingNl]

/-- `getParagraphText` on a generated heading paragraph. -/
theorem getParagraphText_headingPara (title : String) (lvl : Nat) :
    getParagraphText (headingPara title lvl) = stripTrailingNl (title ++ "\n") := by
  have hne : title ++ "\n" ≠ "" := by
    intro h
    have hd := congrArg String.data h
    have hx : (title ++ "\n").data = title.data ++ ['\n'] := rfl
    rw [hx] at hd
    simp at hd
  simp [getParagraphText, headingPara, hne]

/-- Generated heading style strings are truthy. -/
theorem strTruthy_headingStyle (x : String) : strTruthy ("HEADING_" ++ x) = true := by
  simp only [strTruthy, bne_iff_ne, ne_eq]
  intro h
  have hd := congrArg String.data h
  have : ("HEADING_" ++ x).data = 'H' :: ("EADING_" ++ x).data := rfl
  rw [this] at hd
  simp at hd

/-- A list is a `isPrefixOf` of itself followed by anything. -/
theorem isPrefixOf_append_self (l m : List Char) : l.isPrefixOf (l ++ m) = true := by
  induction l with
  | nil => simp [List.isPrefixOf]
  | cons c cs ih => simp [List.isPrefixOf, ih]

/-- Generated heading style strings start with the heading marker. -/
theorem jsStartsWith_headingStyle (x : String) :
    jsStartsWith ("HEADING_" ++ x) "HEADING_" = true := by
  unfold jsStartsWith
  have : ("HEADING_" ++ x).data = "HEADING_".data ++ x.data := rfl
  rw [this]
  exact isPrefixOf_append_self _ _

/-- Parsing the level back out of a generated heading style string. -/
theorem parseHeadingLevel_roundtrip (k : Nat) (h1 : 1 ≤ k) (h6 : k ≤ 6) :
    parseHeadingLevel ("HEADING_" ++ natToDec k) = some k := by
  have hdrop : ("HEADING_" ++ natToDec k).data.drop 8 = (natToDec k).data := by
    have hd : ("HEADING_" ++ natToDec k).data = "HEADING_".data ++ (natToDec k).data := rfl
    rw [hd]
    have h8 : ("HEADING_".data).length = 8 := by decide
    rw [← h8, List.drop_left]
  unfold parseHeadingLevel
  rw [hdrop]
  show jsParseIntNat (natToDec k) = some k
  interval_cases k <;> decide



/-- `s ++ "" = s` for strings. -/
theorem strAppend_empty (s : String) : s ++ "" = s :=
  String.ext (by simp [strData_append])

/-- String append is associative. -/
theorem strAppend_assoc (a b c : String) : (a ++ b) ++ c = a ++ (b ++ c) :=
  String.ext (by simp [strData_append, List.append_assoc])

/-- Newline-terminated-or-empty strings are closed under append. -/
theorem nlTerminated_append {a b : String} (ha : nlTerminated a) (hb : nlTerminated b) :
    nlTerminated (a ++ b) := by
  rcases hb with hb | hb
  · subst hb; rwa [strAppend_empty]
  · right
    have hbne : b.data ≠ [] := by
      intro h0; rw [h0] at hb; simp at hb
    have hd : (a ++ b).data = a.data ++ b.data := rfl
    rw [hd, List.getLast?_append_of_ne_nil _ hbne]
    exact hb

/-- A string ending in an appended newline is newline-terminated. -/
theorem nlTerminated_append_nl (s : String) : nlTerminated (s ++ "\n") := by
  right
  have hd : (s ++ "\n").data = s.data ++ ['\n'] := rfl
  rw [hd, List.getLast?_concat]

/-- Unfolding step: a leading newline is its own paragraph. -/
theorem splitAfterNl_cons_nl (cs : List Char) :
    splitAfterNl ('\n' :: cs) = ['\n'] :: splitAfterNl cs := by
  simp [splitAfterNl]

/-- Unfolding step: any other character joins the next paragraph. -/
theorem splitAfterNl_cons_other (c : Char) (cs : List Char) (h : ¬c = '\n') :
    splitAfterNl (c :: cs) =
      match splitAfterNl cs with
      | [] => [[c]]
      | s :: ss => (c :: s) :: ss := by
  simp [splitAfterNl, h]

/-- A non-empty buffer splits into at least one paragraph. -/
theorem splitAfterNl_ne_nil {l : List Char} (h : l ≠ []) : splitAfterNl l ≠ [] := by
  cases l with
  | nil => exact absurd rfl h
  | cons c cs =>
    by_cases hc : c = '\n'
    · subst hc; rw [splitAfterNl_cons_nl]; simp
    · rw [splitAfterNl_cons_other c cs hc]
      cases splitAfterNl cs <;> simp

/-- Splitting into paragraphs loses no characters. -/
theorem splitAfterNl_flatten : ∀ l : List Char, (splitAfterNl l).flatten = l := by
  intro l
  induction l with
  | nil => rfl
  | cons c cs ih =>
    by_cases hc : c = '\n'
    · subst hc; rw [splitAfterNl_cons_nl]; simp [ih]
    · rw [splitAfterNl_cons_other c cs hc]
      cases hs : splitAfterNl cs with
      | nil =>
        have hcs : cs = [] := by
          by_contra hne
          exact splitAfterNl_ne_nil hne hs
        simp [hcs]
      | cons s ss =>
        rw [hs] at ih
        simp only [List.flatten_cons] at ih ⊢
        simp [← ih]

/-- Paragraph splitting distributes over a newline-terminated prefix. -/
theorem splitAfterNl_append_term : ∀ (A B : List Char), A.getLast? = some '\n' →
    splitAfterNl (A ++ B) = splitAfterNl A ++ splitAfterNl B := by
  intro A
  induction A with
  | nil => intro B h; simp at h
  | cons c A' ih =>
    intro B h
    by_cases hc : c = '\n'
    · subst hc
      cases A' with
      | nil => rw [List.cons_append, List.nil_append, splitAfterNl_cons_nl]; rfl
      | cons d A'' =>
        have h' : (d :: A'').getLast? = some '\n' := by
          rwa [List.getLast?_cons_cons] at h
        rw [List.cons_append, splitAfterNl_cons_nl, splitAfterNl_cons_nl, ih B h']
        rfl
    · have hA' : A' ≠ [] := by
        intro h0
        rw [h0] at h
        simp at h
        exact hc h
      have h' : A'.getLast? = some '\n' := by
        cases A' with
        | nil => exact absurd rfl hA'
        | cons d A'' => rwa [List.getLast?_cons_cons] at h
      cases hs1 : splitAfterNl A' with
      | nil => exact absurd hs1 (splitAfterNl_ne_nil hA')
      | cons s ss =>
        have ihB := ih B h'
        rw [hs1] at ihB
        rw [List.cons_append, splitAfterNl_cons_other c _ hc, ihB,
          splitAfterNl_cons_other c _ hc, hs1]
        rfl

/-- A newline-free run followed by a newline is one paragraph. -/
theorem splitAfterNl_clean_head : ∀ (tl B : List Char), (∀ c ∈ tl, ¬c = '\n') →
    splitAfterNl (tl ++ '\n' :: B) = (tl ++ ['\n']) :: splitAfterNl B := by
  intro tl
  induction tl with
  | nil => intro B _; rw [List.nil_append, splitAfterNl_cons_nl]; rfl
  | cons c tl' ih =>
    intro B h
    have hc : ¬c = '\n' := h c (by simp)
    have ih' := ih B (fun d hd => h d (by simp [hd]))
    rw [List.cons_append, splitAfterNl_cons_other c _ hc, ih']
    rfl

/-- Positions distribute over segment concatenation. -/
theorem withPositions_append : ∀ (xs ys : List (List Char)) (start : Nat),
    withPositions start (xs ++ ys) =
      withPositions start xs ++ withPositions (start + (xs.map List.length).sum) ys := by
  intro xs
  induction xs with
  | nil => intro ys start; simp [withPositions]
  | cons s ss ih =>
    intro ys start
    have h1 : start + s.length + (List.map List.length ss).sum
        = start + (s.length + (List.map List.length ss).sum) := by omega
    show (start, s) :: withPositions (start + s.length) (ss ++ ys) = _
    rw [ih ys (start + s.length), h1]
    rfl

/-- Requests that do not overlap a paragraph leave its resolved style
unchanged. -/
theorem resolveStyle_foldl_none (ps pe : Nat) :
    ∀ (R : List ParStyleReq) (acc : Option String),
      (∀ r ∈ R, reqOverlaps r ps pe = false) →
      R.foldl (fun acc r => if reqOverlaps r ps pe then some r.styleType else acc) acc = acc := by
  intro R
  induction R with
  | nil => intro acc _; rfl
  | cons r R' ih =>
    intro acc h
    have hr : reqOverlaps r ps pe = false := h r (by simp)
    simp only [List.foldl_cons, hr, Bool.false_eq_true, if_false]
    exact ih acc (fun r2 h2 => h r2 (by simp [h2]))

/-- The last overlapping request decides a paragraph's style. -/
theorem resolveStyle_last (R1 : List ParStyleReq) (r : ParStyleReq) (R2 : List ParStyleReq)
    (ps pe : Nat) (hov : reqOverlaps r ps pe = true)
    (hafter : ∀ r2 ∈ R2, reqOverlaps r2 ps pe = false) :
    resolveStyle (R1 ++ r :: R2) ps pe = some r.styleType := by
  unfold resolveStyle
  rw [List.foldl_append, List.foldl_cons, hov]
  simp only [if_true]
  exact resolveStyle_foldl_none ps pe R2 _ hafter



/-- One builder step only appends: text and requests grow by node-local
additions, the index advances by the added text length, every added
request starts at or after the old index, and (for newline-terminated
body contributions) the added text is newline-terminated. -/
theorem emitNode_extend (cb : String → ContentContrib)
    (hcb : ∀ s, nlTerminated (cb s).text) (st : BuildState) (n : FolderNode) :
    ∃ (tAdd : String) (rAdd : List ParStyleReq),
      (emitNode cb st n).text = st.text ++ tAdd ∧
      (emitNode cb st n).reqs = st.reqs ++ rAdd ∧
      (emitNode cb st n).idx = st.idx + tAdd.length ∧
      (∀ r ∈ rAdd, st.idx ≤ r.start) ∧
      nlTerminated tAdd := by
  cases hk : n.kind with
  | folder =>
    refine ⟨n.name ++ "\n", [⟨st.idx, st.idx + n.name.length, "HEADING_" ++
      natToDec (min (jsOr1 n.level) 6)⟩], ?_, ?_, ?_, ?_, nlTerminated_append_nl _⟩ <;>
      simp [emitNode, hk, emitHeadingSection]
  | file =>
    cases hc : n.content with
    | none =>
      refine ⟨"", [], ?_, ?_, ?_, ?_, Or.inl rfl⟩ <;>
        simp [emitNode, hk, hc, strAppend_empty]
    | some c =>
      by_cases hce : (c == "") = true
      · refine ⟨"", [], ?_, ?_, ?_, ?_, Or.inl rfl⟩ <;>
          simp [emitNode, hk, hc, hce, strAppend_empty]
      · refine ⟨(n.name ++ "\n") ++ (cb c).text,
          ⟨st.idx, st.idx + n.name.length, "HEADING_" ++ natToDec (min (jsOr1 n.level) 6)⟩ ::
            ((cb c).parStyles.map (fun r =>
              ⟨st.idx + (n.name ++ "\n").length + r.start,
               st.idx + (n.name ++ "\n").length + r.stop, r.styleType⟩)),
          ?_, ?_, ?_, ?_, nlTerminated_append (nlTerminated_append_nl _) (hcb c)⟩
        · simp [emitNode, hk, hc, hce, emitHeadingSection, emitContent, strAppend_assoc]
        · simp [emitNode, hk, hc, hce, emitHeadingSection, emitContent]
        · simp [emitNode, hk, hc, hce, emitHeadingSection, emitContent,
            String.length_append]
          omega
        · intro r hr
          rcases List.mem_cons.mp hr with hr | hr
          · subst hr; exact Nat.le_refl _
          · obtain ⟨r0, _, rfl⟩ := List.mem_map.mp hr
            simp only []
            omega

/-- The builder fold only appends, with all added requests starting at
or after the initial index. -/
theorem build_extend (cb : String → ContentContrib)
    (hcb : ∀ s, nlTerminated (cb s).text) :
    ∀ (l : List FolderNode) (st : BuildState),
      ∃ (tAdd : String) (rAdd : List ParStyleReq),
        (l.foldl (emitNode cb) st).text = st.text ++ tAdd ∧
        (l.foldl (emitNode cb) st).reqs = st.reqs ++ rAdd ∧
        (l.foldl (emitNode cb) st).idx = st.idx + tAdd.length ∧
        (∀ r ∈ rAdd, st.idx ≤ r.start) ∧
        nlTerminated tAdd := by
  intro l
  induction l with
  | nil =>
    intro st
    exact ⟨"", [], (strAppend_empty _).symm, by simp, by simp, by simp, Or.inl rfl⟩
  | cons n l ih =>
    intro st
    obtain ⟨t1, r1, ht1, hr1, hi1, hs1, htm1⟩ := emitNode_extend cb hcb st n
    obtain ⟨t2, r2, ht2, hr2, hi2, hs2, htm2⟩ := ih (emitNode cb st n)
    refine ⟨t1 ++ t2, r1 ++ r2, ?_, ?_, ?_, ?_, nlTerminated_append htm1 htm2⟩
    · rw [List.foldl_cons, ht2, ht1, strAppend_assoc]
    · rw [List.foldl_cons, hr2, hr1, List.append_assoc]
    · rw [List.foldl_cons, hi2, hi1, String.length_append]
      omega
    · intro r hr
      rcases List.mem_append.mp hr with hr | hr
      · exact hs1 r hr
      · have := hs2 r hr
        omega

/-- The builder step for a node the converter emits (folder, or file
with truthy content): a heading-styled title insert at the current
index, followed by node-local additions that all start past the title's
paragraph. -/
theorem emitNode_heading (cb : String → ContentContrib) (st : BuildState) (n : FolderNode)
    (hkind : n.kind = .folder ∨ optStrTruthy n.content = true) :
    ∃ (cAdd : String) (rAdd : List ParStyleReq),
      (emitNode cb st n).text = st.text ++ ((n.name ++ "\n") ++ cAdd) ∧
      (emitNode cb st n).reqs = st.reqs ++
        (⟨st.idx, st.idx + n.name.length,
          "HEADING_" ++ natToDec (min (jsOr1 n.level) 6)⟩ :: rAdd) ∧
      (emitNode cb st n).idx = st.idx + (n.name.length + 1) + cAdd.length ∧
      (∀ r ∈ rAdd, st.idx + n.name.length + 1 ≤ r.start) ∧
      ((∀ s, nlTerminated (cb s).text) → nlTerminated cAdd) := by
  cases hk : n.kind with
  | folder =>
    refine ⟨"", [], ?_, ?_, ?_, by simp, fun _ => Or.inl rfl⟩ <;>
      simp [emitNode, hk, emitHeadingSection, strAppend_empty, String.length_append,
        show ("\n" : String).length = 1 from rfl]
  | file =>
    rcases hkind with hkf | hct
    · rw [hk] at hkf; exact absurd hkf (by simp)
    · cases hc : n.content with
      | none => rw [hc] at hct; simp [optStrTruthy] at hct
      | some c =>
        have hce : (c == "") = false := by
          rw [hc] at hct
          simpa [optStrTruthy, strTruthy] using hct
        refine ⟨(cb c).text,
          (cb c).parStyles.map (fun r =>
            ⟨st.idx + (n.name ++ "\n").length + r.start,
             st.idx + (n.name ++ "\n").length + r.stop, r.styleType⟩),
          ?_, ?_, ?_, ?_, fun hcb => hcb c⟩
        · simp [emitNode, hk, hc, hce, emitHeadingSection, emitContent, strAppend_assoc]
        · simp [emitNode, hk, hc, hce, emitHeadingSection, emitContent]
        · simp [emitNode, hk, hc, hce, emitHeadingSection, emitContent, String.length_append,
            show ("\n" : String).length = 1 from rfl]
        · intro r hr
          obtain ⟨r0, _, rfl⟩ := List.mem_map.mp hr
          simp only [String.length_append]
          have : ("\n" : String).length = 1 := rfl
          omega

/-- `"" ++ s = s` for strings. -/
theorem strNil_append (s : String) : "" ++ s = s := rfl

/-- Non-empty strings have positive length. -/
theorem strLength_pos {s : String} (h : s ≠ "") : 1 ≤ s.length := by
  have hd : s.data ≠ [] := by
    intro h0
    exact h (String.ext h0)
  have hlen : s.length = s.data.length := rfl
  rw [hlen]
  cases hx : s.data with
  | nil => exact absurd hx hd
  | cons c cs => simp

/-- C1 (amended).  For every node the converter emits — every folder,
and every file with non-empty content — among the proper descendants of
the root, at stored level `lv ≥ 2`, with a non-empty newline-free name,
and for body contributions that keep paragraph boundaries (empty or
newline-terminated inserted text), the section list extracted from the
converted document contains a section whose title is the node's name
trimmed of surrounding whitespace and whose level is `min(lv, 6)`.
Files with empty content are skipped outright, and a body whose
`marked` contribution is not newline-terminated (a trailing tight list)
merges into the following heading and pollutes its title — see the
counterexample. -/
theorem roundTrip_section (cb : String → ContentContrib) (root node : FolderNode)
    (hcb : ∀ s, nlTerminated (cb s).text)
    (hmem : node ∈ flattenNodes root)
    (hkind : node.kind = .folder ∨ optStrTruthy node.content = true)
    (hname : node.name ≠ "" ∧ ∀ c ∈ node.name.data, ¬c = '\n')
    (lv : Nat) (hlv : node.level = some lv) (h2 : 2 ≤ lv) :
    ∃ s ∈ extractStructure (convertDocModel cb root),
      s.title = jsTrim node.name ∧ s.level = some (min lv 6) := by
  obtain ⟨l1, l2, hsplit⟩ := List.mem_iff_append.mp hmem
  have hor : jsOr1 node.level = lv := by
    rw [hlv]
    cases lv with
    | zero => omega
    | succ m => rfl
  obtain ⟨t1, r1, ht1, hr1, hi1, hd1, htm1⟩ := build_extend cb hcb l1 ⟨"", [], 1⟩
  obtain ⟨cAdd, rAdd, hta, hra, hia, hsa, htma⟩ :=
    emitNode_heading cb (l1.foldl (emitNode cb) ⟨"", [], 1⟩) node hkind
  obtain ⟨t3, r3, ht3, hr3, hi3, hs3, htm3⟩ :=
    build_extend cb hcb l2 (emitNode cb (l1.foldl (emitNode cb) ⟨"", [], 1⟩) node)
  set st1 := l1.foldl (emitNode cb) (⟨"", [], 1⟩ : BuildState) with hst1def
  set st2 := emitNode cb st1 node with hst2def
  set stF := l2.foldl (emitNode cb) st2 with hstFdef
  rw [hor] at hra
  have hfold : convertBuild cb root = stF := by
    rw [convertBuild, hsplit, List.foldl_append, List.foldl_cons]
  have hsttext : st1.text = t1 := by
    rw [ht1]; exact strNil_append t1
  have hstreqs : st1.reqs = r1 := hr1
  have hstidx : st1.idx = 1 + t1.length := hi1
  have hL1 : 1 ≤ node.name.length := strLength_pos hname.1
  -- the final buffer and its paragraph segmentation
  have htext : stF.text ++ "\n" = t1 ++ ((node.name ++ "\n") ++ (cAdd ++ (t3 ++ "\n"))) := by
    rw [ht3, hta, hsttext]
    simp only [strAppend_assoc]
  have hdata : (stF.text ++ "\n").data
      = t1.data ++ (node.name.data ++ '\n' :: (cAdd ++ (t3 ++ "\n")).data) := by
    rw [htext]
    simp [strData_append, List.append_assoc]
  have hsegs : splitAfterNl (stF.text ++ "\n").data
      = splitAfterNl t1.data ++
          ((node.name.data ++ ['\n']) :: splitAfterNl (cAdd ++ (t3 ++ "\n")).data) := by
    rw [hdata]
    have hclean := splitAfterNl_clean_head node.name.data ((cAdd ++ (t3 ++ "\n")).data) hname.2
    rcases htm1 with h1e | h1t
    · have hnil : t1.data = [] := by rw [h1e]
      rw [hnil, List.nil_append, hclean]
      rfl
    · rw [splitAfterNl_append_term t1.data _ h1t, hclean]
  have hsum : ((splitAfterNl t1.data).map List.length).sum = t1.length := by
    have hj := List.length_flatten (splitAfterNl t1.data)
    rw [splitAfterNl_flatten] at hj
    exact hj.symm
  -- request-list decomposition and style resolution for the title paragraph
  have hreqsF : stF.reqs = r1 ++
      (⟨st1.idx, st1.idx + node.name.length, "HEADING_" ++ natToDec (min lv 6)⟩ ::
        (rAdd ++ r3)) := by
    rw [hr3, hra, hstreqs, List.append_assoc, List.cons_append]
  have hov : reqOverlaps
      ⟨st1.idx, st1.idx + node.name.length, "HEADING_" ++ natToDec (min lv 6)⟩
      (1 + t1.length) (1 + t1.length + (node.name.length + 1)) = true := by
    simp only [reqOverlaps, hstidx, Bool.and_eq_true, decide_eq_true_eq]
    omega
  have hafter : ∀ r2 ∈ rAdd ++ r3,
      reqOverlaps r2 (1 + t1.length) (1 + t1.length + (node.name.length + 1)) = false := by
    intro r2 hr2
    rcases List.mem_append.mp hr2 with hA | hB
    · have hge := hsa r2 hA
      rw [hstidx] at hge
      simp only [reqOverlaps, Bool.and_eq_false_iff, decide_eq_false_iff_not]
      omega
    · have hge := hs3 r2 hB
      have hidx2 : st2.idx = st1.idx + (node.name.length + 1) + cAdd.length := hia
      rw [hidx2, hstidx] at hge
      simp only [reqOverlaps, Bool.and_eq_false_iff, decide_eq_false_iff_not]
      omega
  have hresolve : resolveStyle stF.reqs (1 + t1.length) (1 + t1.length + (node.name.length + 1))
      = some ("HEADING_" ++ natToDec (min lv 6)) := by
    rw [hreqsF]
    exact resolveStyle_last r1 _ (rAdd ++ r3) _ _ hov hafter
  have hseglen : (node.name.data ++ ['\n']).length = node.name.length + 1 := by
    simp
  have hres2 : resolveStyle stF.reqs (1 + t1.length)
      (1 + t1.length + (node.name.data ++ ['\n']).length)
      = some ("HEADING_" ++ natToDec (min lv 6)) := by
    rw [hseglen]
    exact hresolve
  have helt : mkParagraphElt stF.reqs (1 + t1.length, node.name.data ++ ['\n'])
      = { paragraph := some (headingPara node.name (min lv 6)) } := by
    simp only [mkParagraphElt]
    rw [hres2]
    rfl
  -- the document body around the title paragraph
  have hdecomp : extractStructure (convertDocModel cb root)
      = extractLoop
          ((withPositions 1 (splitAfterNl t1.data)).map (mkParagraphElt stF.reqs)
            ++ { paragraph := some (headingPara node.name (min lv 6)) }
              :: (withPositions (1 + t1.length + (node.name.length + 1))
                    (splitAfterNl (cAdd ++ (t3 ++ "\n")).data)).map (mkParagraphElt stF.reqs))
          [] none := by
    have h1 : convertDocModel cb root = buildGoogleDoc stF := by
      rw [convertDocModel, hfold]
    rw [h1]
    show extractLoop
        ((withPositions 1 (splitAfterNl (stF.text ++ "\n").data)).map (mkParagraphElt stF.reqs))
        [] none = _
    rw [hsegs, withPositions_append, hsum]
    show extractLoop
        (((withPositions 1 (splitAfterNl t1.data)) ++
          ((1 + t1.length, node.name.data ++ ['\n']) ::
            withPositions ((1 + t1.length) + (node.name.data ++ ['\n']).length)
              (splitAfterNl (cAdd ++ (t3 ++ "\n")).data))).map (mkParagraphElt stF.reqs))
        [] none = _
    rw [List.map_append, List.map_cons, helt, hseglen]
  -- extract the title section
  have hb : (strTruthy ("HEADING_" ++ natToDec (min lv 6)) &&
      jsStartsWith ("HEADING_" ++ natToDec (min lv 6)) "HEADING_") = true := by
    rw [strTruthy_headingStyle, jsStartsWith_headingStyle]
    rfl
  obtain ⟨s, hs, hst, hsl⟩ := extractLoop_heading (headingPara node.name (min lv 6))
    ("HEADING_" ++ natToDec (min lv 6)) rfl hb
    ((withPositions 1 (splitAfterNl t1.data)).map (mkParagraphElt stF.reqs))
    ((withPositions (1 + t1.length + (node.name.length + 1))
        (splitAfterNl (cAdd ++ (t3 ++ "\n")).data)).map (mkParagraphElt stF.reqs))
    [] none
  refine ⟨s, ?_, ?_, ?_⟩
  · rw [hdecomp]
    exact hs
  · rw [hst, getParagraphText_headingPara, jsTrim_strip_name]
  · rw [hsl, parseHeadingLevel_roundtrip (min lv 6) (by omega) (by omega)]

/-- Witness for C1 at a concrete input: the level-2 file "note" with
body "hi" in a one-file tree is recovered as a section titled "note" at
level 2. -/
theorem roundTrip_section_witness :
    ∃ s ∈ extractStructure (convertDocModel cbEmptyContrib wTree),
      s.title = jsTrim wNote.name ∧ s.level = some (min 2 6) :=
  roundTrip_section cbEmptyContrib wTree wNote
    (fun _ => Or.inl rfl)
    (by simp [wTree, wNote, flattenNodes, flattenList, FolderNode.children])
    (Or.inr (by decide))
    (by decide)
    2 rfl (by decide)

/-- Counterexample to the unamended C1: a level-2 file with empty
content yields no section at all, and a level-2 file whose body is a
trailing tight list leaves a dangling "• " that merges into the next
node's heading paragraph, so the following level-2 file "b" is
recovered with the polluted title "• b" and no section titled "b"
exists. -/
theorem roundTrip_section_cex :
    extractStructure (convertDocModel cbEmptyContrib emptyFileTree) = [] ∧
    (extractStructure (convertDocModel cbListContrib cexListTree)).map Section.title
      = ["a", "• b"] ∧
    ∀ s ∈ extractStructure (convertDocModel cbListContrib cexListTree), s.title ≠ "b" := by
  refine ⟨by decide, by decide, by decide⟩

end GdocsSync
